import Mathlib

/-!
Verification of the scrapinator task-analysis core: a shallow embedding of
`src/utils/json_utils.py`, `src/models/task.py`, `src/exceptions.py` and the
retry/validation pipeline of `src/analyzer.py`, together with theorems that
settle the specification claims about them.

Modelling conventions:
* Python `dict` values parsed from JSON are association lists in insertion
  order (`List (String × Json)`); `dict.setdefault` appends at the end.
* JSON numbers are modelled as integers (the pipeline never relies on
  fractional literals).
* Python floats (retry delays) are modelled as rationals.
* `json.loads` is modelled by a recursive-descent parser with a fuel bound
  that is always sufficient (`3 * length + 3`).
* Exceptions are an inductive type; `isinstance` tests become predicates that
  mirror the Python class hierarchy (`json.JSONDecodeError` is a `ValueError`,
  `RateLimitError` is an `LLMCommunicationError`, which is not a `ValueError`).
-/

namespace Scrapinator

/-! ## JSON values -/

inductive Json where
  | null : Json
  | bool (b : Bool) : Json
  | num (n : Int) : Json
  | str (s : String) : Json
  | arr (elems : List Json) : Json
  | obj (fields : List (String × Json)) : Json

/-- Python truthiness of a JSON-decoded value (`if not x`). -/
def jsonFalsy : Json → Bool
  | .null => true
  | .bool b => !b
  | .num n => n == 0
  | .str s => s.isEmpty
  | .arr l => l.isEmpty
  | .obj f => f.isEmpty

/-- `len(x)` for sized JSON-decoded values (only ever applied to lists in the code). -/
def jsonLen : Json → Nat
  | .arr l => l.length
  | .str s => s.length
  | .obj f => f.length
  | _ => 0

def Json.isObj : Json → Bool
  | .obj _ => true
  | _ => false

def Json.isArr : Json → Bool
  | .arr _ => true
  | _ => false

def Json.isStr : Json → Bool
  | .str _ => true
  | _ => false

/-! ## Character helpers -/

/-- Whitespace as stripped by `str.strip()` / skipped by `json.loads` (ASCII). -/
def isWsChar (c : Char) : Bool :=
  c = ' ' || c = '\t' || c = '\n' || c = '\r' || c = '\x0b' || c = '\x0c'

/-- Drop leading whitespace. -/
def skipWs : List Char → List Char
  | [] => []
  | c :: cs => if isWsChar c then skipWs cs else c :: cs

/-- `str.strip()`. -/
def stripChars (cs : List Char) : List Char :=
  ((skipWs ((skipWs cs).reverse)).reverse)

/-- Is `small` a prefix of `big` (on characters)? -/
def prefixOfCh : List Char → List Char → Bool
  | [], _ => true
  | _ :: _, [] => false
  | a :: as, b :: bs => a = b && prefixOfCh as bs

/-- Python's `needle in hay` on strings, as lists of characters. -/
def containsSub (hay needle : List Char) : Bool :=
  if prefixOfCh needle hay then true
  else
    match hay with
    | [] => false
    | _ :: t => containsSub t needle

/-- `s.lower()` (ASCII). -/
def lowerStr (s : String) : String :=
  ⟨s.data.map Char.toLower⟩

/-! ## `json.loads` model: recursive descent with fuel -/

/-- Decode one escape character inside a JSON string literal
(`\uXXXX` escapes are not modelled; the pipeline never produces them). -/
def unescapeChar (c : Char) : Option Char :=
  if c = '"' ∨ c = '\\' ∨ c = '/' then some c
  else if c = 'n' then some '\n'
  else if c = 't' then some '\t'
  else if c = 'r' then some '\r'
  else if c = 'b' then some (Char.ofNat 8)
  else if c = 'f' then some (Char.ofNat 12)
  else none

/-- Parse the body of a string literal after the opening quote; returns the
decoded characters and the remainder after the closing quote. -/
def parseStringBody : List Char → Option (List Char × List Char)
  | [] => none
  | c :: rest =>
    if c = '"' then some ([], rest)
    else if c = '\\' then
      match rest with
      | [] => none
      | e :: rest2 =>
        match unescapeChar e, parseStringBody rest2 with
        | some u, some (s, r) => some (u :: s, r)
        | _, _ => none
    else
      match parseStringBody rest with
      | some (s, r) => some (c :: s, r)
      | none => none

def isDigitCh (c : Char) : Bool := '0' ≤ c && c ≤ '9'

def takeDigits : List Char → (List Char × List Char)
  | [] => ([], [])
  | c :: cs =>
    if isDigitCh c then
      let (d, r) := takeDigits cs
      (c :: d, r)
    else ([], c :: cs)

def digitsToNat : List Char → Nat → Nat
  | [], acc => acc
  | c :: cs, acc => digitsToNat cs (acc * 10 + (c.toNat - '0'.toNat))

/-- Parse an integer literal (fractional and exponent parts are not modelled). -/
def parseNumber (cs : List Char) : Option (Int × List Char) :=
  match cs with
  | '-' :: cs1 =>
    let (ds, rest) := takeDigits cs1
    if ds.isEmpty then none else some (-(digitsToNat ds 0 : Int), rest)
  | _ =>
    let (ds, rest) := takeDigits cs
    if ds.isEmpty then none else some ((digitsToNat ds 0 : Int), rest)

mutual

/-- Parse one JSON value; returns the value and the unconsumed remainder. -/
def parseValue : Nat → List Char → Option (Json × List Char)
  | 0, _ => none
  | f + 1, cs =>
    match skipWs cs with
    | '{' :: rest =>
      match parseObjFields f rest with
      | some (fs, r) => some (.obj fs, r)
      | none => none
    | '[' :: rest =>
      match parseArrElems f rest with
      | some (es, r) => some (.arr es, r)
      | none => none
    | '"' :: rest =>
      match parseStringBody rest with
      | some (s, r) => some (.str ⟨s⟩, r)
      | none => none
    | 't' :: 'r' :: 'u' :: 'e' :: rest => some (.bool true, rest)
    | 'f' :: 'a' :: 'l' :: 's' :: 'e' :: rest => some (.bool false, rest)
    | 'n' :: 'u' :: 'l' :: 'l' :: rest => some (.null, rest)
    | other =>
      match parseNumber other with
      | some (n, r) => some (.num n, r)
      | none => none

/-- After `{`: either an immediate `}` or a first member. -/
def parseObjFields : Nat → List Char → Option (List (String × Json) × List Char)
  | 0, _ => none
  | f + 1, cs =>
    match skipWs cs with
    | '}' :: rest => some ([], rest)
    | other => parseObjMember f other

/-- One `"key": value` member followed by `,` (more members) or `}`. -/
def parseObjMember : Nat → List Char → Option (List (String × Json) × List Char)
  | 0, _ => none
  | f + 1, cs =>
    match skipWs cs with
    | '"' :: rest =>
      match parseStringBody rest with
      | some (key, r1) =>
        match skipWs r1 with
        | ':' :: r2 =>
          match parseValue f r2 with
          | some (v, r3) =>
            match skipWs r3 with
            | ',' :: r4 =>
              match parseObjMember f r4 with
              | some (fs, r) => some ((⟨key⟩, v) :: fs, r)
              | none => none
            | '}' :: r4 => some ([(⟨key⟩, v)], r4)
            | _ => none
          | none => none
        | _ => none
      | none => none
    | _ => none

/-- After `[`: either an immediate `]` or a first element. -/
def parseArrElems : Nat → List Char → Option (List Json × List Char)
  | 0, _ => none
  | f + 1, cs =>
    match skipWs cs with
    | ']' :: rest => some ([], rest)
    | other => parseArrMember f other

/-- One array element followed by `,` (more elements) or `]`. -/
def parseArrMember : Nat → List Char → Option (List Json × List Char)
  | 0, _ => none
  | f + 1, cs =>
    match parseValue f cs with
    | some (v, r1) =>
      match skipWs r1 with
      | ',' :: r2 =>
        match parseArrMember f r2 with
        | some (es, r) => some (v :: es, r)
        | none => none
      | ']' :: r2 => some ([v], r2)
      | _ => none
    | none => none

end

/-- `json.loads` on a character list: parse one value, allow only trailing
whitespace.  The fuel `3 * length + 3` always suffices for this grammar. -/
def jsonLoads (cs : List Char) : Option Json :=
  match parseValue (3 * cs.length + 3) cs with
  | some (v, rest) => if skipWs rest = [] then some v else none
  | none => none

example : jsonLoads "\x7b\"key\": \"value\"\x7d".data =
    some (.obj [("key", .str "value")]) := rfl

/-! ## `extract_json_from_text` (src/utils/json_utils.py) -/

/-- One greedy match of the pattern `\x7b[^\x7b\x7d]*(?:\x7b[^\x7b\x7d]*\x7d[^\x7b\x7d]*)*\x7d`
starting right after an opening brace.  `depth` records whether we are inside
the one permitted level of nested braces.  Returns the matched characters
(including the final closing brace) and the remainder.  Because the character
class `[^\x7b\x7d]` can never consume a brace, the greedy match of this
pattern is determined by the brace sequence alone, which this scanner follows. -/
def braceMatch : Bool → List Char → Option (List Char × List Char)
  | _, [] => none
  | depth, c :: r =>
    if c = '}' then
      if depth then
        match braceMatch false r with
        | some (m, rest) => some ('}' :: m, rest)
        | none => none
      else some (['}'], r)
    else if c = '{' then
      if depth then none
      else
        match braceMatch true r with
        | some (m, rest) => some ('{' :: m, rest)
        | none => none
    else
      match braceMatch depth r with
      | some (m, rest) => some (c :: m, rest)
      | none => none

/-- `re.findall` of the brace pattern: scan left to right, emit each
non-overlapping greedy match, resume after a match (or one character after a
failed candidate start, which is equivalent to resuming at the next brace).
The fuel argument only serves termination; `fuel = length` always suffices
because a match consumes at least one character. -/
def regexCandidatesF : Nat → List Char → List (List Char)
  | 0, _ => []
  | _ + 1, [] => []
  | f + 1, c :: rest =>
    if c = '{' then
      match braceMatch false rest with
      | some (m, r) => ('{' :: m) :: regexCandidatesF f r
      | none => regexCandidatesF f rest
    else regexCandidatesF f rest

def regexCandidates (cs : List Char) : List (List Char) :=
  regexCandidatesF cs.length cs

/-- Try parsing a candidate; keep it only when it is a JSON object. -/
def candidateObj (cs : List Char) : Option Json :=
  match jsonLoads cs with
  | some (.obj fs) => some (.obj fs)
  | _ => none

/-- Strategy 3: the substring from the first `'\x7b'` to the last `'\x7d'`.
When the last closing brace precedes the first opening brace (or either is
missing) the candidate is empty and parsing fails, matching the guarded
`start_idx < end_idx` path returning `None`. -/
def strategy3 (t : List Char) : Option Json :=
  let fromOpen := t.dropWhile (fun c => c ≠ '{')
  let candidate := (fromOpen.reverse.dropWhile (fun c => c ≠ '}')).reverse
  candidateObj candidate

/-- `extract_json_from_text`: strategy 1 (whole trimmed text), then strategy 2
(regex candidates, first object wins), then strategy 3 (outermost braces). -/
def extract_json_from_text (text : String) : Option Json :=
  if text.isEmpty then none
  else
    let t := stripChars text.data
    match candidateObj t with
    | some j => some j
    | none =>
      match (regexCandidates t).findSome? candidateObj with
      | some j => some j
      | none => strategy3 t

example : extract_json_from_text "Some text before \x7b\"key\": \"value\"\x7d and after" =
    some (.obj [("key", .str "value")]) := rfl
example : extract_json_from_text "No JSON here" = none := rfl
example : extract_json_from_text "[1, 2, 3, 4]" = none := rfl
example : extract_json_from_text "[\x7b\"a\": 1\x7d]" = some (.obj [("a", .num 1)]) := rfl
example : extract_json_from_text "\x7b\"first\": 1\x7d some text \x7b\"second\": 2\x7d" =
    some (.obj [("first", .num 1)]) := rfl

/-! ## `normalize_optional_fields` (src/utils/json_utils.py) -/

/-- Membership of a value in the Python list `[None, "null", "None", []]`. -/
def isNullish : Json → Bool
  | .null => true
  | .str s => s = "null" || s = "None"
  | .arr l => l.isEmpty
  | _ => false

/-- First value bound to `k` (Python `data[k]` on a dict). -/
def lookupJ : List (String × Json) → String → Option Json
  | [], _ => none
  | (k', v) :: rest, k => if k' = k then some v else lookupJ rest k

/-- `k in data`. -/
def hasField (d : List (String × Json)) (k : String) : Bool :=
  (lookupJ d k).isSome

/-- `data[k] = v` on an existing key (every entry with that key is rewritten;
on dicts, where keys are unique, this is ordinary assignment). -/
def setField (d : List (String × Json)) (k : String) (v : Json) : List (String × Json) :=
  d.map (fun p => (p.1, if p.1 = k then v else p.2))

/-- One iteration of the `for field in fields` loop. -/
def normStep (d : List (String × Json)) (f : String) : List (String × Json) :=
  match lookupJ d f with
  | some v => if isNullish v then setField d f .null else d
  | none => d

/-- `normalize_optional_fields(data, fields)`. -/
def normalize_optional_fields (d : List (String × Json)) (fields : List String) :
    List (String × Json) :=
  fields.foldl normStep d

example :
    normalize_optional_fields
      [("field1", .str "null"), ("field2", .arr []), ("field3", .str "value")]
      ["field1", "field2"] =
    [("field1", .null), ("field2", .null), ("field3", .str "value")] := rfl

/-! ## Exception taxonomy (src/exceptions.py) and Python builtins

Only the data the claims depend on is carried: the offending field and
expected type for `ValidationError`, the retry count for the communication
errors, and the message for the `ValueError` family (used by substring
classification). -/

inductive Exc where
  | invalidResponseFormat : Exc
  | validationError (field : String) (expected_type : String) : Exc
  | contextLengthExceeded : Exc
  | llmCommunicationError (retry_count : Nat) : Exc
  | rateLimitError (retry_count : Nat) : Exc
  | jsonDecodeError (msg : String) : Exc
  | valueError (msg : String) : Exc
  | pydanticValidationError (msg : String) : Exc
  | timeoutError : Exc
  | otherError (msg : String) : Exc
deriving DecidableEq

/-- `isinstance(e, TaskAnalysisError)`: the typed analysis error taxonomy of
`src/exceptions.py` (its five concrete classes). -/
def isTaskAnalysisError : Exc → Bool
  | .invalidResponseFormat => true
  | .validationError _ _ => true
  | .contextLengthExceeded => true
  | .llmCommunicationError _ => true
  | .rateLimitError _ => true
  | _ => false

/-- `isinstance(e, ValueError)`: `json.JSONDecodeError` and pydantic's
`ValidationError` subclass `ValueError`; the custom taxonomy does not. -/
def isValueErrorClass : Exc → Bool
  | .valueError _ => true
  | .jsonDecodeError _ => true
  | .pydanticValidationError _ => true
  | _ => false

/-- `str(e)` for the exceptions whose text the code inspects (the inspection
sites only ever run on the `ValueError` family). -/
def excMessage : Exc → String
  | .valueError msg => msg
  | .jsonDecodeError msg => msg
  | .pydanticValidationError msg => msg
  | .otherError msg => msg
  | _ => ""

/-- `"rate limit" in msg or "too many requests" in msg` on the lowered text. -/
def rateLimitText (msg : String) : Bool :=
  containsSub (lowerStr msg).data "rate limit".data ||
    containsSub (lowerStr msg).data "too many requests".data

/-- `"context length" in msg or "token limit" in msg` on the lowered text. -/
def contextLengthText (msg : String) : Bool :=
  containsSub (lowerStr msg).data "context length".data ||
    containsSub (lowerStr msg).data "token limit".data

/-! ## Task model (src/models/task.py)

The pydantic model: `objectives` and `success_criteria` carry
`min_length=1`, `validate_assignment=True` re-checks on assignment,
`extra="forbid"` rejects unknown keys.  Type constraints are static in this
typed embedding; the length constraints become run-time checks of the
modelled constructor. -/

structure Task where
  description : String
  objectives : List String
  constraints : List String
  success_criteria : List String
  data_to_extract : Option (List String)
  actions_to_perform : Option (List String)
  context : List (String × Json)

/-- `Task(...)` with typed (already type-correct) arguments: pydantic enforces
the `min_length=1` constraints and otherwise stores the values as given. -/
def mkTask (description : String) (objectives constraints success_criteria : List String)
    (data_to_extract actions_to_perform : Option (List String))
    (context : List (String × Json)) : Except Exc Task :=
  if objectives.length < 1 then
    .error (.pydanticValidationError "validation error for Task: objectives too short")
  else if success_criteria.length < 1 then
    .error (.pydanticValidationError "validation error for Task: success_criteria too short")
  else
    .ok ⟨description, objectives, constraints, success_criteria,
      data_to_extract, actions_to_perform, context⟩

/-- Reassignment `task.objectives = v` under `validate_assignment=True`. -/
def Task.assignObjectives (t : Task) (v : List String) : Except Exc Task :=
  if v.length < 1 then
    .error (.pydanticValidationError "validation error for Task: objectives too short")
  else .ok { t with objectives := v }

/-- Reassignment `task.success_criteria = v` under `validate_assignment=True`. -/
def Task.assignSuccessCriteria (t : Task) (v : List String) : Except Exc Task :=
  if v.length < 1 then
    .error (.pydanticValidationError "validation error for Task: success_criteria too short")
  else .ok { t with success_criteria := v }

/-- `has_data_extraction`. -/
def Task.has_data_extraction (t : Task) : Bool :=
  match t.data_to_extract with
  | none => false
  | some l => 0 < l.length

/-- `has_actions`. -/
def Task.has_actions (t : Task) : Bool :=
  match t.actions_to_perform with
  | none => false
  | some l => 0 < l.length

/-- `is_complex`. -/
def Task.is_complex (t : Task) : Bool :=
  2 < t.objectives.length ||
    (t.has_actions && match t.actions_to_perform with
      | none => false
      | some l => 3 < l.length)

/-- Decode a JSON value as a list of strings (used by `Task(**data)` where the
surrounding pipeline has already type-checked the value). -/
def asStrList : Json → Option (List String)
  | .arr l => l.mapM (fun j => match j with | .str s => some s | _ => none)
  | _ => none

def taskFieldNames : List String :=
  ["description", "objectives", "constraints", "success_criteria",
   "data_to_extract", "actions_to_perform", "context"]

/-- Decode an optional list-of-strings field: an absent key or JSON `null`
becomes pydantic's default `None`. -/
def optStrList : Option Json → Option (Option (List String))
  | none => some none
  | some .null => some none
  | some j => (asStrList j).map some

/-- `Task(**data)` from a decoded JSON mapping.  A pydantic `ValidationError`
is a `ValueError` subclass, hence modelled as `Exc.valueError`; in particular
it is NOT one of the custom taxonomy classes the analyzer treats as
non-retryable. -/
def task_of_data (d : List (String × Json)) : Except Exc Task :=
  if d.any (fun p => ¬ taskFieldNames.contains p.1) then
    .error (.pydanticValidationError "validation error for Task: extra inputs are not permitted")
  else
    match lookupJ d "description" with
    | some (.str desc) =>
      match (lookupJ d "objectives").bind asStrList with
      | some objectives =>
        match (match lookupJ d "constraints" with
               | none => some []
               | some j => asStrList j) with
        | some constraints =>
          match (lookupJ d "success_criteria").bind asStrList with
          | some success_criteria =>
            match optStrList (lookupJ d "data_to_extract") with
            | some dte =>
              match optStrList (lookupJ d "actions_to_perform") with
              | some atp =>
                match (lookupJ d "context").getD (.obj []) with
                | .obj ctx =>
                  mkTask desc objectives constraints success_criteria dte atp ctx
                | _ => .error (.pydanticValidationError "validation error for Task: context")
              | none => .error (.pydanticValidationError "validation error for Task: actions_to_perform")
            | none => .error (.pydanticValidationError "validation error for Task: data_to_extract")
          | none => .error (.pydanticValidationError "validation error for Task: success_criteria")
        | none => .error (.pydanticValidationError "validation error for Task: constraints")
      | none => .error (.pydanticValidationError "validation error for Task: objectives")
    | _ => .error (.pydanticValidationError "validation error for Task: description")

/-! ## `_parse_llm_response` and `_validate_field_types` (src/analyzer.py) -/

def jsonElems : Json → List Json
  | .arr l => l
  | _ => []

/-- The `for i, item in enumerate(data[field])` loop body. -/
def checkItemsStr (field : String) : Nat → List Json → Except Exc Unit
  | _, [] => .ok ()
  | i, j :: rest =>
    match j with
    | .str _ => checkItemsStr field (i + 1) rest
    | _ => .error (.validationError (field ++ "[" ++ toString i ++ "]") "string")

/-- The per-field body of the `for field in list_fields` loop. -/
def checkListField (d : List (String × Json)) (field : String) : Except Exc Unit :=
  match lookupJ d field with
  | none => .ok ()
  | some v =>
    if !v.isArr then .error (.validationError field "list of strings")
    else if jsonFalsy v then .ok ()
    else checkItemsStr field 0 (jsonElems v)

/-- The per-field body of the `for field in optional_list_fields` loop. -/
def checkOptField (d : List (String × Json)) (field : String) : Except Exc Unit :=
  match lookupJ d field with
  | none => .ok ()
  | some .null => .ok ()
  | some (.arr _) => .ok ()
  | some _ => .error (.validationError field "list of strings or null")

/-- `_validate_field_types(data)`. -/
def validate_field_types (d : List (String × Json)) : Except Exc Unit := do
  match lookupJ d "description" with
  | some (.str _) => pure ()
  | _ => throw (.validationError "description" "string")
  checkListField d "objectives"
  checkListField d "success_criteria"
  checkListField d "constraints"
  checkOptField d "data_to_extract"
  checkOptField d "actions_to_perform"
  match lookupJ d "context" with
  | none => pure ()
  | some (.obj _) => pure ()
  | some _ => throw (.validationError "context" "dictionary")

/-- `data.setdefault(k, v)`: Python dicts append new keys at the end. -/
def setdefaultJ (d : List (String × Json)) (k : String) (v : Json) : List (String × Json) :=
  if hasField d k then d else d ++ [(k, v)]

/-- The required fields missing from the mapping, in the order the code lists
them (`missing_fields`). -/
def requiredMissing (d : List (String × Json)) : List String :=
  ["description", "objectives", "success_criteria"].filter (fun f => !hasField d f)

/-- `if not data.get(field) or len(data[field]) == 0: raise ValidationError`. -/
def nonEmptyCheck (d : List (String × Json)) (field : String) : Except Exc Unit :=
  let failed := match lookupJ d field with
    | none => true
    | some v => jsonFalsy v || jsonLen v == 0
  if failed then .error (.validationError field "Non-empty list of strings") else .ok ()

/-- The part of `_parse_llm_response` that runs after JSON extraction
succeeded with a truthy mapping: required-field check, defaults,
normalization, type checks, then the minimum-item checks, in source order. -/
def checks_of_data (data : List (String × Json)) : Except Exc (List (String × Json)) :=
  match requiredMissing data with
  | f :: _ => .error (.validationError f "Required field must be present")
  | [] =>
    let d1 := setdefaultJ data "constraints" (.arr [])
    let d2 := setdefaultJ d1 "context" (.obj [])
    let d3 := normalize_optional_fields d2 ["data_to_extract", "actions_to_perform"]
    match validate_field_types d3 with
    | .error e => .error e
    | .ok _ =>
      match nonEmptyCheck d3 "objectives" with
      | .error e => .error e
      | .ok _ =>
        match nonEmptyCheck d3 "success_criteria" with
        | .error e => .error e
        | .ok _ => .ok d3

/-- `_parse_llm_response(response)`: extraction (`if not data` treats both a
missing result and an empty mapping as a format error), then the checks. -/
def parse_llm_response (response : String) : Except Exc (List (String × Json)) :=
  match extract_json_from_text response with
  | some (.obj (p :: fs)) => checks_of_data (p :: fs)
  | _ => .error .invalidResponseFormat

/-! ## `analyze_task` retry machinery (src/analyzer.py) -/

/-- What the awaited LLM completion does on one attempt. -/
inductive LLMEvent where
  | response (text : String) : LLMEvent
  | raises (e : Exc) : LLMEvent
  | timesOut : LLMEvent

/-- The `except` chain of `_analyze_with_retry`, applied to an exception
raised inside the `try` block, in source order: `TimeoutError`,
`json.JSONDecodeError`, `ValueError` (substring classification),
the pass-through custom classes, then `Exception`. -/
def handle_attempt_exception (e : Exc) : Exc :=
  match e with
  | .timeoutError => .llmCommunicationError 0
  | .jsonDecodeError _ => .invalidResponseFormat
  | .valueError msg =>
    if rateLimitText msg then .rateLimitError 0
    else if contextLengthText msg then .contextLengthExceeded
    else .valueError msg
  | .pydanticValidationError msg =>
    if rateLimitText msg then .rateLimitError 0
    else if contextLengthText msg then .contextLengthExceeded
    else .pydanticValidationError msg
  | .invalidResponseFormat => .invalidResponseFormat
  | .validationError f t => .validationError f t
  | .contextLengthExceeded => .contextLengthExceeded
  | .llmCommunicationError _ => .llmCommunicationError 0
  | .rateLimitError _ => .llmCommunicationError 0
  | .otherError _ => .llmCommunicationError 0

/-- One attempt of `_analyze_with_retry`: complete → parse → `Task(**data)`,
with every raised exception transformed by the `except` chain. -/
def analyze_attempt (ev : LLMEvent) : Except Exc Task :=
  match ev with
  | .timesOut => .error (.llmCommunicationError 0)
  | .raises e => .error (handle_attempt_exception e)
  | .response text =>
    match parse_llm_response text with
    | .error e => .error (handle_attempt_exception e)
    | .ok d =>
      match task_of_data d with
      | .error e => .error (handle_attempt_exception e)
      | .ok t => .ok t

/-- `_is_retryable_error`. -/
def is_retryable_error : Exc → Bool
  | .invalidResponseFormat => false
  | .validationError _ _ => false
  | .contextLengthExceeded => false
  | .jsonDecodeError _ => false
  | .valueError msg => !contextLengthText msg
  | .pydanticValidationError msg => !contextLengthText msg
  | _ => true

def RATE_LIMIT_RETRY_MULTIPLIER : ℚ := 5
def MAX_RETRY_DELAY : ℚ := 60

/-- Python's builtin `min(a, b)` (returns `a` on ties, like `Min.min`, but
stated through the decidable order so that it evaluates by `rfl`). -/
def pyMin (a b : ℚ) : ℚ := if a ≤ b then a else b

theorem pyMin_eq_min (a b : ℚ) : pyMin a b = min a b := (min_def a b).symm

/-- `determine_wait(retry_state)`: the 5x branch requires the outcome's
exception to be a `ValueError` with rate-limit text. -/
def determine_wait (retry_delay : ℚ) (attempt_number : Nat) (e : Exc) : ℚ :=
  if isValueErrorClass e && rateLimitText (excMessage e) then
    pyMin (retry_delay * 2 ^ (attempt_number - 1) * RATE_LIMIT_RETRY_MULTIPLIER) MAX_RETRY_DELAY
  else
    pyMin (retry_delay * 2 ^ (attempt_number - 1)) MAX_RETRY_DELAY

/-- The `after_attempt` callback: set `retry_count` on the custom
communication exceptions. -/
def update_retry_count (e : Exc) (n : Nat) : Exc :=
  match e with
  | .llmCommunicationError _ => .llmCommunicationError n
  | .rateLimitError _ => .rateLimitError n
  | e => e

/-- The tenacity loop with `retry_if_exception(_is_retryable_error)`,
`stop_after_attempt(max_retries)`, `wait=determine_wait` and `reraise=True`:
a non-retryable exception is re-raised at once (before the `after` callback);
a retryable one has its retry count updated, then either the stop condition
re-raises it or a wait is scheduled and the next attempt runs.  Returns the
outcome, the number of attempts made, and the scheduled waits. -/
def runRetryGo (retry_delay : ℚ) (events : Nat → LLMEvent) :
    Nat → Nat → Except Exc Task × Nat × List ℚ
  | remaining, attemptNo =>
    match analyze_attempt (events attemptNo) with
    | .ok t => (.ok t, attemptNo, [])
    | .error e =>
      if is_retryable_error e then
        let e' := update_retry_count e attemptNo
        match remaining with
        | 0 => (.error e', attemptNo, [])
        | r + 1 =>
          let w := determine_wait retry_delay attemptNo e'
          let res := runRetryGo retry_delay events r (attemptNo + 1)
          (res.1, res.2.1, w :: res.2.2)
      else (.error e, attemptNo, [])

/-- `analyze_task`: build the prompt (no failure modes modelled), run the
decorated `_analyze_with_retry`.  With `reraise=True` tenacity re-raises the
last attempt's exception, so the `except tenacity.RetryError` handler in the
source is unreachable and the loop's outcome is the call's outcome. -/
def analyze_task_model (retry_delay : ℚ) (max_retries : Nat) (events : Nat → LLMEvent) :
    Except Exc Task × Nat × List ℚ :=
  runRetryGo retry_delay events (max_retries - 1) 1

/-! ## General facts about the retry loop -/

/-- A run whose every attempt fails with the same retryable exception makes
all its attempts, re-raises the exception with the final attempt count, and
schedules one wait per non-final attempt. -/
theorem runRetryGo_const_fail (base : ℚ) (ev : LLMEvent) (e : Exc)
    (hb : analyze_attempt ev = .error e) (hr : is_retryable_error e = true) :
    ∀ (r n : Nat), runRetryGo base (fun _ => ev) r n =
      (.error (update_retry_count e (n + r)), n + r,
        (List.range r).map (fun i => determine_wait base (n + i) (update_retry_count e (n + i))))
  | 0, n => by simp [runRetryGo, hb, hr]
  | r + 1, n => by
    have ih := runRetryGo_const_fail base ev e hb hr r (n + 1)
    simp only [runRetryGo, hb, hr, if_true, ih, List.range_succ_eq_map, List.map_cons,
      List.map_map]
    have h1 : n + 1 + r = n + (r + 1) := by omega
    have h2 : n + 0 = n := by omega
    rw [h1, h2]
    refine congrArg (fun l => (_, _, Scrapinator.determine_wait base n (Scrapinator.update_retry_count e n) :: l)) ?_
    apply List.map_congr_left
    intro i _
    simp only [Function.comp_apply, Nat.succ_eq_add_one]
    rw [show n + 1 + i = n + (i + 1) by omega]

/-- A first attempt failing with a non-retryable exception ends the run at
once: the exception is re-raised unchanged after exactly one attempt. -/
theorem runRetryGo_nonretryable (base : ℚ) (events : Nat → LLMEvent) (e : Exc) (r n : Nat)
    (hb : analyze_attempt (events n) = .error e) (hr : is_retryable_error e = false) :
    runRetryGo base events r n = (.error e, n, []) := by
  cases r <;> simp [runRetryGo, hb, hr]

/-! ## Claim C1 -/

/-- **C1** (code-bug exhibit).  The claim says every `analyze_task` call
either returns a Task or raises exactly one typed error from the analysis
taxonomy, retryable exhaustion surfacing as a Communication/Rate-Limit error
annotated with the attempt count.  But a generic `ValueError` raised by the
completion is re-raised unwrapped by the attempt body, classified retryable
by `_is_retryable_error`, and — because the retry decorator uses
`reraise=True` — re-raised raw to the caller once the budget is exhausted:
with `max_retries = 3` the caller receives the naked `ValueError`, which is
not a `TaskAnalysisError` and carries no attempt count. -/
theorem c1_generic_valueError_escapes_untyped :
    (analyze_task_model 1 3 (fun _ => .raises (.valueError "invalid input"))).1 =
      .error (.valueError "invalid input") ∧
    (analyze_task_model 1 3 (fun _ => .raises (.valueError "invalid input"))).2.1 = 3 ∧
    isTaskAnalysisError (.valueError "invalid input") = false ∧
    is_retryable_error (.valueError "invalid input") = true :=
  ⟨rfl, rfl, rfl, rfl⟩

/-! ## Claim C2 -/

/-- **C2** (code-bug exhibit).  The claim says a retry following a
rate-limit-classified failure is scheduled with delay
`base_delay * 2^(attempt-1) * 5` (capped).  In the run below the underlying
failure is the rate-limit `ValueError("Rate limit exceeded")`; the attempt
body wraps it into `RateLimitError`, and since `determine_wait`'s multiplier
branch requires `isinstance(e, ValueError)` — which `RateLimitError` is not —
the scheduled delay is the generic `1 * 2^0 = 1`, not the claimed
`1 * 2^0 * 5 = 5`. -/
theorem c2_rate_limit_backoff_not_multiplied :
    (analyze_task_model 1 2 (fun _ => .raises (.valueError "Rate limit exceeded"))).1 =
      .error (.rateLimitError 2) ∧
    (analyze_task_model 1 2 (fun _ => .raises (.valueError "Rate limit exceeded"))).2.2 = [1] ∧
    rateLimitText (excMessage (.valueError "Rate limit exceeded")) = true ∧
    isValueErrorClass (.rateLimitError 1) = false ∧
    pyMin (1 * 2 ^ (1 - 1) * RATE_LIMIT_RETRY_MULTIPLIER) MAX_RETRY_DELAY = 5 ∧
    (1 : ℚ) ≠ 5 := by
  refine ⟨rfl, ?_, rfl, rfl, ?_, by norm_num⟩
  · have h := runRetryGo_const_fail 1 (.raises (.valueError "Rate limit exceeded"))
      (.rateLimitError 0) rfl rfl 1 1
    have : analyze_task_model 1 2 (fun _ => .raises (.valueError "Rate limit exceeded")) =
        runRetryGo 1 (fun _ => .raises (.valueError "Rate limit exceeded")) 1 1 := rfl
    rw [this, h]
    have hr1 : List.range 1 = [0] := rfl
    rw [hr1, List.map_cons, List.map_nil]
    have hw : determine_wait 1 (1 + 0) (update_retry_count (.rateLimitError 0) (1 + 0)) =
        pyMin (1 * 2 ^ 0) 60 := rfl
    rw [hw, pyMin, if_pos (by norm_num)]
    norm_num
  · rw [pyMin, RATE_LIMIT_RETRY_MULTIPLIER, MAX_RETRY_DELAY, if_pos (by norm_num)]
    norm_num

/-! ## Claim C6 -/

/-- **C6** (confirmed).  Constructing a Task with empty `objectives` or empty
`success_criteria`, or reassigning either field to an empty list, always
fails with a (pydantic) validation error and never silently defaults; after
every successful construction or reassignment both fields are non-empty. -/
theorem c6_nonempty_invariant :
    (∀ (d : String) (o c s : List String) (dte atp : Option (List String))
        (ctx : List (String × Json)), o = [] ∨ s = [] →
        ∃ msg, mkTask d o c s dte atp ctx = .error (.pydanticValidationError msg)) ∧
    (∀ t : Task, (∃ msg, t.assignObjectives [] = .error (.pydanticValidationError msg)) ∧
        (∃ msg, t.assignSuccessCriteria [] = .error (.pydanticValidationError msg))) ∧
    (∀ (d : String) (o c s : List String) (dte atp : Option (List String))
        (ctx : List (String × Json)) (t : Task), mkTask d o c s dte atp ctx = .ok t →
        t.objectives ≠ [] ∧ t.success_criteria ≠ []) ∧
    (∀ (t : Task) (v : List String) (t' : Task), t.assignObjectives v = .ok t' →
        t'.objectives ≠ []) ∧
    (∀ (t : Task) (v : List String) (t' : Task), t.assignSuccessCriteria v = .ok t' →
        t'.success_criteria ≠ []) := by
  refine ⟨?_, ?_, ?_, ?_, ?_⟩
  · rintro d o c s dte atp ctx (rfl | rfl)
    · exact ⟨"validation error for Task: objectives too short", by simp [mkTask]⟩
    · rcases o with _ | ⟨x, o⟩
      · exact ⟨"validation error for Task: objectives too short", by simp [mkTask]⟩
      · exact ⟨"validation error for Task: success_criteria too short", by simp [mkTask]⟩
  · intro t
    exact ⟨⟨"validation error for Task: objectives too short", by simp [Task.assignObjectives]⟩,
      ⟨"validation error for Task: success_criteria too short",
        by simp [Task.assignSuccessCriteria]⟩⟩
  · intro d o c s dte atp ctx t h
    rw [mkTask] at h
    split at h
    · exact absurd h (by simp)
    · split at h
      · exact absurd h (by simp)
      · cases h
        constructor
        · simpa [List.length_pos_iff_ne_nil] using (by omega : ¬ o.length < 1)
        · simpa [List.length_pos_iff_ne_nil] using (by omega : ¬ s.length < 1)
  · intro t v t' h
    rw [Task.assignObjectives] at h
    split at h
    · exact absurd h (by simp)
    · cases h
      simpa [List.length_pos_iff_ne_nil] using (by omega : ¬ v.length < 1)
  · intro t v t' h
    rw [Task.assignSuccessCriteria] at h
    split at h
    · exact absurd h (by simp)
    · cases h
      simpa [List.length_pos_iff_ne_nil] using (by omega : ¬ v.length < 1)

/-- Witness for C6 at concrete inputs. -/
theorem c6_nonempty_invariant_witness :
    (∃ msg, mkTask "d" [] [] ["s"] none none [] = .error (.pydanticValidationError msg)) ∧
    (∀ t : Task, mkTask "d" ["o"] [] ["s"] none none [] = .ok t →
      t.objectives ≠ [] ∧ t.success_criteria ≠ []) :=
  ⟨c6_nonempty_invariant.1 "d" [] [] ["s"] none none [] (Or.inl rfl),
   fun t h => (c6_nonempty_invariant.2.2.1 "d" ["o"] [] ["s"] none none [] t h)⟩

/-! ## Claim C10 -/

/-- **C10** (confirmed).  Constructing a Task directly with
`data_to_extract = []` (resp. `actions_to_perform = []`) succeeds, the empty
list is stored as-is (not converted to `None`), and `has_data_extraction`
(resp. `has_actions`) returns `False` — exactly as for the absent value, even
though the stored values differ. -/
theorem c10_empty_optional_lists :
    (∀ (d : String) (o c s : List String) (ctx : List (String × Json)),
        o ≠ [] → s ≠ [] →
        ∃ t, mkTask d o c s (some []) (some []) ctx = .ok t ∧
          t.data_to_extract = some [] ∧ t.actions_to_perform = some [] ∧
          t.has_data_extraction = false ∧ t.has_actions = false) ∧
    (∀ t : Task, t.data_to_extract = none → t.has_data_extraction = false) ∧
    (∀ t : Task, t.actions_to_perform = none → t.has_actions = false) ∧
    (some ([] : List String) ≠ (none : Option (List String))) := by
  refine ⟨?_, ?_, ?_, by simp⟩
  · intro d o c s ctx ho hs
    refine ⟨⟨d, o, c, s, some [], some [], ctx⟩, ?_, rfl, rfl, rfl, rfl⟩
    rw [mkTask, if_neg (by simpa [List.length_pos_iff_ne_nil] using ho),
      if_neg (by simpa [List.length_pos_iff_ne_nil] using hs)]
  · intro t h
    simp [Task.has_data_extraction, h]
  · intro t h
    simp [Task.has_actions, h]

/-- Witness for C10 at concrete inputs. -/
theorem c10_empty_optional_lists_witness :
    ∃ t, mkTask "d" ["o"] [] ["s"] (some []) (some []) [] = .ok t ∧
      t.data_to_extract = some [] ∧ t.actions_to_perform = some [] ∧
      t.has_data_extraction = false ∧ t.has_actions = false :=
  c10_empty_optional_lists.1 "d" ["o"] [] ["s"] [] (by simp) (by simp)

/-! ## Claim C5 -/

/-- **C5** (confirmed).  A completion failing with a generic (unclassified)
exception is wrapped into a retryable communication error and retried up to
the attempt budget (`max_retries` attempts in total, wrapped with the final
attempt count), with scheduled delays `base * 2^(attempt-1)` capped at the
maximum delay — non-decreasing, and strictly increasing while below the cap.
An attempt that raises an Invalid Response Format, Validation, or Context
Length error is never retried: it propagates unchanged after exactly one
attempt, so the completion is invoked exactly once. -/
theorem c5_retry_classification :
    (∀ (m : Nat) (base : ℚ) (msg : String), 1 ≤ m → 0 < base →
      analyze_task_model base m (fun _ => .raises (.otherError msg)) =
        (.error (.llmCommunicationError m), m,
          (List.range (m - 1)).map (fun i => pyMin (base * 2 ^ i) MAX_RETRY_DELAY))) ∧
    (∀ base : ℚ, 0 < base → ∀ i : Nat,
      pyMin (base * 2 ^ i) MAX_RETRY_DELAY ≤ pyMin (base * 2 ^ (i + 1)) MAX_RETRY_DELAY ∧
      (pyMin (base * 2 ^ i) MAX_RETRY_DELAY < MAX_RETRY_DELAY →
        pyMin (base * 2 ^ i) MAX_RETRY_DELAY < pyMin (base * 2 ^ (i + 1)) MAX_RETRY_DELAY)) ∧
    (∀ (base : ℚ) (m : Nat) (events : Nat → LLMEvent) (e : Exc),
      analyze_attempt (events 1) = .error e →
      (e = .invalidResponseFormat ∨ (∃ f t, e = .validationError f t) ∨
        e = .contextLengthExceeded) →
      analyze_task_model base m events = (.error e, 1, [])) := by
  refine ⟨?_, ?_, ?_⟩
  · intro m base msg hm hb
    have hatt : analyze_attempt (.raises (.otherError msg)) =
        .error (.llmCommunicationError 0) := rfl
    have h := runRetryGo_const_fail base (.raises (.otherError msg))
      (.llmCommunicationError 0) hatt rfl (m - 1) 1
    have hm1 : 1 + (m - 1) = m := by omega
    have hupd : update_retry_count (.llmCommunicationError 0) m = .llmCommunicationError m := rfl
    rw [analyze_task_model, h, hm1, hupd]
    congr 1
    congr 1
    apply List.map_congr_left
    intro i _
    have : update_retry_count (.llmCommunicationError 0) (1 + i) =
        .llmCommunicationError (1 + i) := rfl
    rw [this, determine_wait]
    have hcond : (isValueErrorClass (.llmCommunicationError (1 + i)) &&
        rateLimitText (excMessage (.llmCommunicationError (1 + i)))) = false := rfl
    rw [hcond, if_neg (by simp)]
    rw [show 1 + i - 1 = i by omega]
  · intro base hb i
    have hpos : 0 < base * 2 ^ i := by positivity
    have hlt : base * 2 ^ i < base * 2 ^ (i + 1) := by
      have : (2 : ℚ) ^ i < 2 ^ (i + 1) := by
        apply pow_lt_pow_right₀ (by norm_num) (by omega)
      exact (mul_lt_mul_left hb).2 this
    constructor
    · rw [pyMin_eq_min, pyMin_eq_min]
      exact min_le_min hlt.le le_rfl
    · intro h
      rw [pyMin_eq_min] at h ⊢
      rw [pyMin_eq_min]
      have hax : base * 2 ^ i < MAX_RETRY_DELAY := by
        by_contra hc
        push_neg at hc
        rw [min_eq_right hc] at h
        exact lt_irrefl _ h
      rw [min_eq_left hax.le]
      exact lt_min hlt hax
  · intro base m events e hatt hcls
    have hr : is_retryable_error e = false := by
      rcases hcls with rfl | ⟨f, t, rfl⟩ | rfl <;> rfl
    rw [analyze_task_model]
    exact runRetryGo_nonretryable base events e (m - 1) 1 hatt hr

/-- Witness for C5: a generic failure with `max_retries = 2` makes two
attempts; a malformed response (Invalid Response Format) makes exactly one. -/
theorem c5_retry_classification_witness :
    analyze_task_model 1 2 (fun _ => .raises (.otherError "boom")) =
      (.error (.llmCommunicationError 2), 2,
        (List.range 1).map (fun i => pyMin (1 * 2 ^ i) MAX_RETRY_DELAY)) ∧
    analyze_task_model 1 3 (fun _ => .response "This is not JSON") =
      (.error .invalidResponseFormat, 1, []) :=
  ⟨c5_retry_classification.1 2 1 "boom" (by norm_num) (by norm_num),
   c5_retry_classification.2.2 1 3 (fun _ => .response "This is not JSON")
     .invalidResponseFormat rfl (Or.inl rfl)⟩

/-! ## Claim C8 -/

/-- A mapping is "normalized at `f`": every entry keyed `f` is already the
canonical `null`, or the field's value is not nullish, or the field is
absent. -/
def NormedAt (d : List (String × Json)) (f : String) : Prop :=
  (∀ p ∈ d, p.1 = f → p.2 = Json.null) ∨
  (∃ v, lookupJ d f = some v ∧ isNullish v = false) ∨ lookupJ d f = none

theorem mem_setField (p : String × Json) (d : List (String × Json)) (f : String) (v : Json)
    (hp : p ∈ setField d f v) : ∃ q ∈ d, p = (q.1, if q.1 = f then v else q.2) := by
  rcases List.mem_map.1 hp with ⟨q, hq, rfl⟩
  exact ⟨q, hq, rfl⟩

theorem setField_null_entries (d : List (String × Json)) (f : String) :
    ∀ p ∈ setField d f .null, p.1 = f → p.2 = Json.null := by
  intro p hp hpf
  rcases mem_setField p d f .null hp with ⟨q, hq, hpq⟩
  rw [hpq] at hpf ⊢
  simp only at hpf
  simp [if_pos hpf]

theorem lookupJ_setField_ne (d : List (String × Json)) (f g : String) (v : Json)
    (hne : g ≠ f) : lookupJ (setField d g v) f = lookupJ d f := by
  induction d with
  | nil => rfl
  | cons q qs ih =>
    obtain ⟨k, w⟩ := q
    by_cases h : k = g
    · subst h
      simpa [setField, lookupJ, hne] using ih
    · by_cases h2 : k = f
      · simp [setField, lookupJ, h, h2, hne.symm]
      · simpa [setField, lookupJ, h, h2] using ih

theorem normStep_normed (d : List (String × Json)) (f : String) :
    NormedAt (normStep d f) f := by
  rw [normStep]
  cases h : lookupJ d f with
  | none => exact Or.inr (Or.inr h)
  | some v =>
    show NormedAt (if isNullish v = true then setField d f Json.null else d) f
    by_cases hn : isNullish v = true
    · rw [if_pos hn]
      exact Or.inl (setField_null_entries d f)
    · rw [if_neg hn]
      exact Or.inr (Or.inl ⟨v, h, by simpa using hn⟩)

theorem normStep_preserves (d : List (String × Json)) (f g : String)
    (h : NormedAt d f) : NormedAt (normStep d g) f := by
  rw [normStep]
  cases hl : lookupJ d g with
  | none => exact h
  | some v =>
    show NormedAt (if isNullish v = true then setField d g Json.null else d) f
    by_cases hn : isNullish v = true
    · rw [if_pos hn]
      by_cases hgf : g = f
      · subst hgf
        exact Or.inl (setField_null_entries d g)
      · rcases h with hall | hmid | hnone
        · refine Or.inl ?_
          intro p hp hpf
          rcases mem_setField p d g .null hp with ⟨q, hq, hpq⟩
          rw [hpq] at hpf ⊢
          simp only at hpf
          have hqg : q.1 ≠ g := fun hc => hgf (by rw [← hpf, hc])
          simp only [if_neg hqg]
          exact hall q hq hpf
        · exact Or.inr (Or.inl (by rwa [lookupJ_setField_ne d f g .null hgf]))
        · exact Or.inr (Or.inr (by rwa [lookupJ_setField_ne d f g .null hgf]))
    · rw [if_neg hn]
      exact h

theorem foldl_normStep_preserves (fs : List String) (d : List (String × Json)) (f : String)
    (h : NormedAt d f) : NormedAt (List.foldl normStep d fs) f := by
  induction fs generalizing d with
  | nil => exact h
  | cons g gs ih => exact ih (normStep d g) (normStep_preserves d f g h)

theorem foldl_normStep_normed (fs : List String) (d : List (String × Json)) (f : String)
    (hf : f ∈ fs) : NormedAt (List.foldl normStep d fs) f := by
  induction fs generalizing d with
  | nil => exact absurd hf (List.not_mem_nil f)
  | cons g gs ih =>
    rcases List.mem_cons.1 hf with rfl | hf'
    · exact foldl_normStep_preserves gs (normStep d f) f (normStep_normed d f)
    · exact ih (normStep d g) hf'


theorem setField_null_id (d : List (String × Json)) (f : String)
    (h : ∀ p ∈ d, p.1 = f → p.2 = Json.null) : setField d f .null = d := by
  induction d with
  | nil => rfl
  | cons q qs ih =>
    obtain ⟨k, w⟩ := q
    have htail : setField qs f .null = qs :=
      ih (fun p hp => h p (List.mem_cons_of_mem _ hp))
    rw [setField, List.map_cons]
    rw [show List.map (fun p => (p.1, if p.1 = f then Json.null else p.2)) qs = qs from htail]
    by_cases hk : k = f
    · have hw : w = Json.null := h (k, w) (List.mem_cons_self _ _) hk
      subst hk
      subst hw
      simp
    · simp [hk]

theorem lookupJ_some_mem (d : List (String × Json)) (f : String) (v : Json)
    (h : lookupJ d f = some v) : (f, v) ∈ d := by
  induction d with
  | nil => simp [lookupJ] at h
  | cons q qs ih =>
    obtain ⟨k, w⟩ := q
    rw [lookupJ] at h
    by_cases hk : k = f
    · rw [if_pos hk] at h
      cases h
      subst hk
      exact List.mem_cons_self _ _
    · rw [if_neg hk] at h
      exact List.mem_cons_of_mem _ (ih h)

theorem normStep_id (d : List (String × Json)) (f : String)
    (h : NormedAt d f) : normStep d f = d := by
  rw [normStep]
  cases hl : lookupJ d f with
  | none => rfl
  | some v =>
    show (if isNullish v = true then setField d f Json.null else d) = d
    by_cases hn : isNullish v = true
    · rw [if_pos hn]
      rcases h with hall | ⟨w, hw, hwn⟩ | hnone
      · exact setField_null_id d f hall
      · rw [hl] at hw
        cases hw
        rw [hn] at hwn
        exact absurd hwn (by simp)
      · rw [hl] at hnone
        exact absurd hnone (by simp)
    · rw [if_neg hn]

theorem foldl_normStep_id (fs : List String) (d : List (String × Json))
    (h : ∀ f ∈ fs, NormedAt d f) : List.foldl normStep d fs = d := by
  induction fs with
  | nil => rfl
  | cons g gs ih =>
    rw [List.foldl_cons, normStep_id d g (h g (List.mem_cons_self g gs))]
    exact ih (fun f hf => h f (List.mem_cons_of_mem g hf))

/-- **C8** (confirmed).  `normalize_optional_fields` is idempotent: for every
mapping and every list of field names, applying it twice yields exactly the
mapping obtained by applying it once. -/
theorem c8_normalize_idempotent (d : List (String × Json)) (fields : List String) :
    normalize_optional_fields (normalize_optional_fields d fields) fields =
      normalize_optional_fields d fields := by
  rw [normalize_optional_fields, normalize_optional_fields]
  exact foldl_normStep_id fields _ (fun f hf => foldl_normStep_normed fields d f hf)

/-! ## Claim C9 -/

theorem skipWs_of_all_ws (cs : List Char) (h : ∀ c ∈ cs, isWsChar c = true) :
    skipWs cs = [] := by
  induction cs with
  | nil => rfl
  | cons c rest ih =>
    rw [skipWs, if_pos (h c (List.mem_cons_self c rest))]
    exact ih (fun c hc => h c (List.mem_cons_of_mem _ hc))

theorem stripChars_of_all_ws (cs : List Char) (h : ∀ c ∈ cs, isWsChar c = true) :
    stripChars cs = [] := by
  rw [stripChars, skipWs_of_all_ws cs h]
  rfl

/-- **C9** (confirmed).  `extract_json_from_text` is total: every input —
including empty and whitespace-only input — yields either a parsed mapping or
the absent result `none`; the absent result is an ordinary value, not an
exception. -/
theorem c9_extract_total :
    (∀ s : String, (∀ c ∈ s.data, isWsChar c = true) → extract_json_from_text s = none) ∧
    (∀ s : String, extract_json_from_text s = none ∨
      ∃ j, extract_json_from_text s = some j) := by
  constructor
  · intro s hws
    by_cases hemp : s.isEmpty
    · rw [extract_json_from_text, if_pos hemp]
    · rw [extract_json_from_text, if_neg hemp]
      simp only [stripChars_of_all_ws s.data hws]
      rfl
  · intro s
    cases h : extract_json_from_text s with
    | none => exact Or.inl rfl
    | some j => exact Or.inr ⟨j, rfl⟩

/-- Witness for C9: whitespace-only and empty inputs give the absent result. -/
theorem c9_extract_total_witness :
    extract_json_from_text "   " = none ∧ extract_json_from_text "" = none :=
  ⟨c9_extract_total.1 "   " (by decide), c9_extract_total.1 "" (by decide)⟩

/-! ## Claim C3 -/

/-- The defaulting and normalization steps `_parse_llm_response` applies
between the required-field check and the type checks. -/
def withDefaultsNormalized (d : List (String × Json)) : List (String × Json) :=
  normalize_optional_fields
    (setdefaultJ (setdefaultJ d "constraints" (.arr [])) "context" (.obj []))
    ["data_to_extract", "actions_to_perform"]

/-- **C3 counterexample.**  The claim says the non-empty check runs before the
type checks, so a mapping violating both reports the non-empty-list
violation.  On the mapping below — `description` violating the type rule and
`objectives` violating the non-emptiness rule — the code reports the
`description` type error, not the `objectives` non-empty error. -/
theorem c3_counterexample :
    checks_of_data
      [("description", .num 42), ("objectives", .arr []),
       ("success_criteria", .arr [.str "s"])] =
      .error (.validationError "description" "string") ∧
    lookupJ
      [("description", .num 42), ("objectives", .arr []),
       ("success_criteria", .arr [.str "s"])] "objectives" = some (.arr []) ∧
    Exc.validationError "description" "string" ≠
      Exc.validationError "objectives" "Non-empty list of strings" :=
  ⟨rfl, rfl, by decide⟩

/-- **C3** (amended & proved).  Validation of a parsed mapping runs its
checks in source order, stopping at the first failure: required-field
presence first (reporting the first missing field); then `constraints` and
`context` defaulting plus optional-field normalization; then the type checks;
and only then the non-empty checks on `objectives` and `success_criteria`.
Consequently, for a mapping violating both a non-emptiness rule and a type
rule, the reported error names the type violation. -/
theorem c3_validation_order :
    (∀ (d : List (String × Json)) (f : String) (fs : List String),
      requiredMissing d = f :: fs →
      checks_of_data d = .error (.validationError f "Required field must be present")) ∧
    (∀ (d : List (String × Json)) (e : Exc), requiredMissing d = [] →
      validate_field_types (withDefaultsNormalized d) = .error e →
      checks_of_data d = .error e) ∧
    (∀ d : List (String × Json), requiredMissing d = [] →
      validate_field_types (withDefaultsNormalized d) = .ok () →
      (∃ v, lookupJ (withDefaultsNormalized d) "objectives" = some v ∧ jsonFalsy v = true) →
      checks_of_data d =
        .error (.validationError "objectives" "Non-empty list of strings")) := by
  refine ⟨?_, ?_, ?_⟩
  · intro d f fs hreq
    simp only [checks_of_data, hreq]
  · intro d e hreq hty
    simp only [checks_of_data, hreq]
    rw [show normalize_optional_fields
      (setdefaultJ (setdefaultJ d "constraints" (.arr [])) "context" (.obj []))
      ["data_to_extract", "actions_to_perform"] = withDefaultsNormalized d from rfl, hty]
  · intro d hreq hty ⟨v, hv, hfalsy⟩
    simp only [checks_of_data, hreq]
    rw [show normalize_optional_fields
      (setdefaultJ (setdefaultJ d "constraints" (.arr [])) "context" (.obj []))
      ["data_to_extract", "actions_to_perform"] = withDefaultsNormalized d from rfl, hty]
    rw [show nonEmptyCheck (withDefaultsNormalized d) "objectives" =
      .error (.validationError "objectives" "Non-empty list of strings") by
        rw [nonEmptyCheck, hv]
        simp [hfalsy]]

/-- Witness for C3: the first missing required field is reported, and on the
counterexample mapping the type error wins over the non-empty error. -/
theorem c3_validation_order_witness :
    checks_of_data [("description", .str "d")] =
      .error (.validationError "objectives" "Required field must be present") ∧
    checks_of_data
      [("description", .num 42), ("objectives", .arr []),
       ("success_criteria", .arr [.str "s"])] =
      .error (.validationError "description" "string") :=
  ⟨c3_validation_order.1 [("description", .str "d")] "objectives" ["success_criteria"] rfl,
   c3_validation_order.2.1
     [("description", .num 42), ("objectives", .arr []),
      ("success_criteria", .arr [.str "s"])]
     (.validationError "description" "string") rfl rfl⟩

/-! ## Claim C4 -/

theorem mem_skipWs (c : Char) (cs : List Char) (h : c ∈ skipWs cs) : c ∈ cs := by
  induction cs with
  | nil => simp [skipWs] at h
  | cons d rest ih =>
    rw [skipWs] at h
    by_cases hd : isWsChar d = true
    · rw [if_pos hd] at h
      exact List.mem_cons_of_mem _ (ih h)
    · rw [if_neg hd] at h
      exact h

theorem mem_stripChars (c : Char) (cs : List Char) (h : c ∈ stripChars cs) : c ∈ cs := by
  rw [stripChars] at h
  rw [List.mem_reverse] at h
  have h2 := mem_skipWs c _ h
  rw [List.mem_reverse] at h2
  exact mem_skipWs c _ h2

theorem regexCandidatesF_no_brace (cs : List Char) (h : ∀ c ∈ cs, ¬c = '{') :
    ∀ f, regexCandidatesF f cs = [] := by
  induction cs with
  | nil => intro f; cases f <;> rfl
  | cons c rest ih =>
    intro f
    cases f with
    | zero => rfl
    | succ f =>
      rw [regexCandidatesF, if_neg (h c (List.mem_cons_self _ _))]
      exact ih (fun d hd => h d (List.mem_cons_of_mem _ hd)) f

theorem candidateObj_isObj (cs : List Char) (j : Json) (h : candidateObj cs = some j) :
    j.isObj = true := by
  rw [candidateObj] at h
  cases hj : jsonLoads cs with
  | none => rw [hj] at h; exact absurd h (by simp)
  | some v =>
    rw [hj] at h
    cases v <;> simp at h
    rw [← h]
    rfl

theorem strategy3_isObj (t : List Char) (j : Json) (h : strategy3 t = some j) :
    j.isObj = true := by
  rw [strategy3] at h
  exact candidateObj_isObj _ _ h

/-- **C4 counterexample.**  The claim says input whose entire trimmed content
is a valid JSON array always yields the absent result.  The input
`"[\x7b\"a\": 1\x7d]"` parses entirely as a JSON array, yet strategy 2 finds the
embedded object and the extractor returns it. -/
theorem c4_counterexample :
    jsonLoads (stripChars "[\x7b\"a\": 1\x7d]".data) = some (.arr [.obj [("a", .num 1)]]) ∧
    extract_json_from_text "[\x7b\"a\": 1\x7d]" = some (.obj [("a", .num 1)]) :=
  ⟨rfl, rfl⟩

/-- **C4** (amended & proved).  An array is never accepted as the extraction
result: whenever the extractor returns a value it is a JSON object.  An input
whose entire trimmed content parses as a JSON array is itself rejected, and
when it additionally contains no opening brace (so no later strategy can find
an embedded object) the result is absent. -/
theorem c4_array_never_result :
    (∀ (s : String) (vs : List Json),
      jsonLoads (stripChars s.data) = some (.arr vs) →
      (∀ c ∈ s.data, ¬c = '{') → extract_json_from_text s = none) ∧
    (∀ (s : String) (j : Json), extract_json_from_text s = some j → j.isObj = true) := by
  constructor
  · intro s vs harr hnb
    by_cases hemp : s.isEmpty
    · rw [extract_json_from_text, if_pos hemp]
    · rw [extract_json_from_text, if_neg hemp]
      have hnbt : ∀ c ∈ stripChars s.data, ¬c = '{' :=
        fun c hc => hnb c (mem_stripChars c _ hc)
      have hc1 : candidateObj (stripChars s.data) = none := by
        rw [candidateObj, harr]
      have hc2 : regexCandidates (stripChars s.data) = [] := by
        rw [regexCandidates]
        exact regexCandidatesF_no_brace _ hnbt _
      have hc3 : strategy3 (stripChars s.data) = none := by
        rw [strategy3]
        have : (stripChars s.data).dropWhile (fun c => c ≠ '{') = [] := by
          rw [List.dropWhile_eq_nil_iff]
          intro c hc
          simpa using hnbt c hc
        rw [this]
        rfl
      simp only [hc1, hc2, List.findSome?_nil, hc3]
  · intro s j h
    rw [extract_json_from_text] at h
    by_cases hemp : s.isEmpty
    · rw [if_pos hemp] at h
      exact absurd h (by simp)
    · rw [if_neg hemp] at h
      cases h1 : candidateObj (stripChars s.data) with
      | some j1 =>
        simp only [h1, Option.some.injEq] at h
        rw [← h]
        exact candidateObj_isObj _ _ h1
      | none =>
        simp only [h1] at h
        cases h2 : (regexCandidates (stripChars s.data)).findSome? candidateObj with
        | some j2 =>
          simp only [h2, Option.some.injEq] at h
          rcases List.exists_of_findSome?_eq_some h2 with ⟨a, _, ha⟩
          rw [← h]
          exact candidateObj_isObj _ _ ha
        | none =>
          simp only [h2] at h
          exact strategy3_isObj _ _ h

/-- Witness for C4 (amended): a plain scalar array yields the absent result,
and the counterexample's extracted value is an object. -/
theorem c4_array_never_result_witness :
    extract_json_from_text "[1, 2, 3, 4]" = none ∧
    Json.isObj (.obj [("a", .num 1)]) = true :=
  ⟨c4_array_never_result.1 "[1, 2, 3, 4]" [.num 1, .num 2, .num 3, .num 4] rfl (by decide),
   c4_array_never_result.2 "[\x7b\"a\": 1\x7d]" (.obj [("a", .num 1)]) rfl⟩

/-! ## Claim C7: payloads, serialization, and the round trip -/

/-- A well-formed Task payload (the wire shape of section 6 of the spec),
with `context` restricted to a flat mapping of strings. -/
structure Payload where
  description : String
  objectives : List String
  constraints : List String
  success_criteria : List String
  data_to_extract : Option (List String)
  actions_to_perform : Option (List String)
  context : List (String × String)

/-- JSON string escaping (the two characters that require it). -/
def escChars : List Char → List Char
  | [] => []
  | c :: cs => if c = '"' ∨ c = '\\' then '\\' :: c :: escChars cs else c :: escChars cs

def serStr (s : String) : List Char := '"' :: (escChars s.data ++ ['"'])

def joinComma : List (List Char) → List Char
  | [] => []
  | [x] => x
  | x :: xs => x ++ ',' :: joinComma xs

def serStrList (l : List String) : List Char :=
  '[' :: (joinComma (l.map serStr) ++ [']'])

def serOptList : Option (List String) → List Char
  | none => ['n', 'u', 'l', 'l']
  | some l => serStrList l

def serMember (k : String) (v : List Char) : List Char := serStr k ++ ':' :: v

def serContext (ctx : List (String × String)) : List Char :=
  '{' :: (joinComma (ctx.map (fun p => serMember p.1 (serStr p.2))) ++ ['}'])

/-- The canonical JSON serialization of a payload (context last). -/
def serializePayload (P : Payload) : List Char :=
  '{' :: (joinComma
    [serMember "description" (serStr P.description),
     serMember "objectives" (serStrList P.objectives),
     serMember "constraints" (serStrList P.constraints),
     serMember "success_criteria" (serStrList P.success_criteria),
     serMember "data_to_extract" (serOptList P.data_to_extract),
     serMember "actions_to_perform" (serOptList P.actions_to_perform),
     serMember "context" (serContext P.context)] ++ ['}'])

def jsonOfOptList : Option (List String) → Json
  | none => .null
  | some l => .arr (l.map Json.str)

/-- The JSON mapping a payload decodes to. -/
def payloadJson (P : Payload) : List (String × Json) :=
  [("description", .str P.description),
   ("objectives", .arr (P.objectives.map Json.str)),
   ("constraints", .arr (P.constraints.map Json.str)),
   ("success_criteria", .arr (P.success_criteria.map Json.str)),
   ("data_to_extract", jsonOfOptList P.data_to_extract),
   ("actions_to_perform", jsonOfOptList P.actions_to_perform),
   ("context", .obj (P.context.map (fun p => (p.1, Json.str p.2))))]

def samplePayload : Payload :=
  { description := "Extract product prices"
    objectives := ["Navigate to products page", "Extract all prices"]
    constraints := ["Only extract visible products"]
    success_criteria := ["All product prices extracted"]
    data_to_extract := some ["Product names", "Prices"]
    actions_to_perform := none
    context := [("category", "electronics")] }

set_option maxRecDepth 8192 in
example : jsonLoads (serializePayload samplePayload) =
    some (.obj (payloadJson samplePayload)) := rfl

set_option maxRecDepth 8192 in
example : extract_json_from_text
    ⟨"Here it \"is\": ".data ++ serializePayload samplePayload ++ " done.".data⟩ =
    some (.obj (payloadJson samplePayload)) := rfl

theorem skipWs_cons_not_ws (c : Char) (cs : List Char) (h : isWsChar c = false) :
    skipWs (c :: cs) = c :: cs := by
  rw [skipWs, if_neg (by simp [h])]

theorem psb_cons (c : Char) (rest : List Char) :
    parseStringBody (c :: rest) =
      if c = '"' then some ([], rest)
      else if c = '\\' then
        match rest with
        | [] => none
        | e :: rest2 =>
          match unescapeChar e, parseStringBody rest2 with
          | some u, some (s, r) => some (u :: s, r)
          | _, _ => none
      else
        match parseStringBody rest with
        | some (s, r) => some (c :: s, r)
        | none => none := by
  rw [parseStringBody.eq_def]

theorem psb_escChars (s : List Char) : ∀ rest : List Char,
    parseStringBody (escChars s ++ '"' :: rest) = some (s, rest) := by
  induction s with
  | nil =>
    intro rest
    rw [escChars, List.nil_append, psb_cons, if_pos rfl]
  | cons c cs ih =>
    intro rest
    rw [escChars]
    by_cases hc : c = '"' ∨ c = '\\'
    · rw [if_pos hc, List.cons_append, List.cons_append, psb_cons,
        if_neg (by decide), if_pos rfl]
      rcases hc with rfl | rfl
      · show (match unescapeChar '"', parseStringBody (escChars cs ++ '"' :: rest) with
          | some u, some (s, r) => some (u :: s, r)
          | _, _ => none) = some ('"' :: cs, rest)
        rw [ih rest]
        rfl
      · show (match unescapeChar '\\', parseStringBody (escChars cs ++ '"' :: rest) with
          | some u, some (s, r) => some (u :: s, r)
          | _, _ => none) = some ('\\' :: cs, rest)
        rw [ih rest]
        rfl
    · push_neg at hc
      rw [if_neg (by tauto), List.cons_append, psb_cons, if_neg (by simp [hc.1]),
        if_neg (by simp [hc.2])]
      rw [ih rest]

theorem parse_null (f : Nat) (rest : List Char) :
    parseValue (f + 1) (['n', 'u', 'l', 'l'] ++ rest) = some (.null, rest) := rfl

theorem serStr_cons (s : String) (rest : List Char) :
    serStr s ++ rest = '"' :: (escChars s.data ++ '"' :: rest) := by
  rw [serStr]
  simp [List.append_assoc]

theorem parse_serStr (s : String) (f : Nat) (rest : List Char) :
    parseValue (f + 1) (serStr s ++ rest) = some (.str s, rest) := by
  rw [serStr_cons, parseValue, skipWs_cons_not_ws _ _ (by decide)]
  show (match parseStringBody (escChars s.data ++ '"' :: rest) with
    | some (s, r) => some (Json.str ⟨s⟩, r)
    | none => none) = some (.str s, rest)
  rw [psb_escChars]

theorem skipWs_serStr_append (x : String) (t : List Char) :
    skipWs (serStr x ++ t) = serStr x ++ t := by
  rw [serStr_cons, skipWs_cons_not_ws _ _ (by decide)]

theorem skipWs_comma (t : List Char) : skipWs (',' :: t) = ',' :: t :=
  skipWs_cons_not_ws _ _ (by decide)

theorem skipWs_colon (t : List Char) : skipWs (':' :: t) = ':' :: t :=
  skipWs_cons_not_ws _ _ (by decide)

theorem skipWs_rbracket (t : List Char) : skipWs (']' :: t) = ']' :: t :=
  skipWs_cons_not_ws _ _ (by decide)

theorem skipWs_rbrace (t : List Char) : skipWs ('}' :: t) = '}' :: t :=
  skipWs_cons_not_ws _ _ (by decide)

/-- One element step of the array parser, with the element's parse given. -/
theorem parseArrMember_step (F : Nat) (cs : List Char) (v : Json) (r1 : List Char)
    (hv : parseValue F cs = some (v, r1)) :
    parseArrMember (F + 1) cs =
      (match skipWs r1 with
      | ',' :: r2 =>
        (match parseArrMember F r2 with
        | some (es, r) => some (v :: es, r)
        | none => none)
      | ']' :: r2 => some ([v], r2)
      | _ => none) := by
  rw [parseArrMember, hv]

theorem parse_arrMember (xs : List String) : ∀ (x : String) (f : Nat) (rest : List Char),
    parseArrMember (f + xs.length + 2) (joinComma ((x :: xs).map serStr) ++ ']' :: rest) =
      some ((x :: xs).map Json.str, rest) := by
  induction xs with
  | nil =>
    intro x f rest
    rw [List.map_cons, List.map_nil, joinComma]
    rw [show f + List.length ([] : List String) + 2 = (f + 1) + 1 from by simp]
    rw [parseArrMember_step (f + 1) _ _ _ (parse_serStr x f (']' :: rest)),
      skipWs_rbracket]
    rfl
  | cons y ys ih =>
    intro x f rest
    rw [List.map_cons, List.map_cons, joinComma]
    case x_2 => simp
    rw [show (serStr x ++ ',' :: joinComma (serStr y :: List.map serStr ys)) ++ ']' :: rest =
      serStr x ++ ',' :: (joinComma ((y :: ys).map serStr) ++ ']' :: rest) from by
        simp [List.append_assoc]]
    rw [show f + (y :: ys).length + 2 = (f + ys.length + 2) + 1 from by
      simp only [List.length_cons]
      omega]
    rw [parseArrMember_step (f + ys.length + 2) _ _ _
      (parse_serStr x (f + ys.length + 1) _), skipWs_comma]
    show (match parseArrMember (f + ys.length + 2)
        (joinComma ((y :: ys).map serStr) ++ ']' :: rest) with
      | some (es, r) => some (Json.str x :: es, r)
      | none => none) = some ((x :: y :: ys).map Json.str, rest)
    rw [ih y f rest]
    rfl

/-- The array parser after `[` dispatches to the element parser when the next
character is not `]`. -/
theorem parseArrElems_cons (F : Nat) (c : Char) (t : List Char)
    (hc : ¬c = ']') (hws : isWsChar c = false) :
    parseArrElems (F + 1) (c :: t) = parseArrMember F (c :: t) := by
  rw [parseArrElems, skipWs_cons_not_ws _ _ hws]
  split
  · next heq => exact absurd (List.cons.inj heq).1 hc
  · rfl

theorem parse_serStrList (l : List String) (f : Nat) (rest : List Char) :
    parseValue (f + l.length + 3) (serStrList l ++ rest) =
      some (.arr (l.map Json.str), rest) := by
  rw [serStrList]
  rw [show ('[' :: (joinComma (l.map serStr) ++ [']'])) ++ rest =
    '[' :: (joinComma (l.map serStr) ++ ']' :: rest) from by simp]
  rw [show f + l.length + 3 = (f + l.length + 2) + 1 from rfl]
  rw [parseValue, skipWs_cons_not_ws _ _ (by decide)]
  show (match parseArrElems (f + l.length + 2) (joinComma (l.map serStr) ++ ']' :: rest) with
    | some (es, r) => some (Json.arr es, r)
    | none => none) = some (.arr (l.map Json.str), rest)
  cases l with
  | nil =>
    rw [List.map_nil, joinComma, List.nil_append]
    rw [show f + List.length ([] : List String) + 2 = (f + 1) + 1 from by simp]
    rw [parseArrElems, skipWs_rbracket]
    rfl
  | cons x xs =>
    have hjoin : joinComma ((x :: xs).map serStr) ++ ']' :: rest =
        serStr x ++ (match xs with
          | [] => ']' :: rest
          | y :: ys => ',' :: (joinComma ((y :: ys).map serStr) ++ ']' :: rest)) := by
      cases xs with
      | nil => rw [List.map_cons, List.map_nil, joinComma]
      | cons y ys =>
        rw [List.map_cons, List.map_cons, joinComma]
        case x_2 => simp
        simp [List.append_assoc]
    rw [show f + (x :: xs).length + 2 = (f + xs.length + 2) + 1 from by
      simp only [List.length_cons]
      omega]
    rw [hjoin, serStr_cons, parseArrElems_cons _ _ _ (by decide) (by decide),
      ← serStr_cons, ← hjoin]
    rw [show f + xs.length + 2 = f + xs.length + 2 from rfl, parse_arrMember xs x f rest]

/-- A member step ending in a comma: parse `"k":V,REST` given the value parse
and the parse of the remaining members. -/
theorem parseObjMember_comma (k : String) (V REST fr : List Char) (v : Json)
    (F : Nat) (fs : List (String × Json))
    (hv : parseValue F (V ++ ',' :: REST) = some (v, ',' :: REST))
    (hrest : parseObjMember F REST = some (fs, fr)) :
    parseObjMember (F + 1) (serMember k V ++ ',' :: REST) = some ((k, v) :: fs, fr) := by
  rw [serMember]
  rw [show (serStr k ++ ':' :: V) ++ ',' :: REST = serStr k ++ ':' :: (V ++ ',' :: REST) from by
    simp [List.append_assoc]]
  rw [serStr_cons, parseObjMember, skipWs_cons_not_ws _ _ (by decide)]
  show (match parseStringBody (escChars k.data ++ '"' :: (':' :: (V ++ ',' :: REST))) with
    | some (key, r1) =>
      match skipWs r1 with
      | ':' :: r2 =>
        match parseValue F r2 with
        | some (v, r3) =>
          match skipWs r3 with
          | ',' :: r4 =>
            match parseObjMember F r4 with
            | some (fs, r) => some ((⟨key⟩, v) :: fs, r)
            | none => none
          | '}' :: r4 => some ([(⟨key⟩, v)], r4)
          | _ => none
        | none => none
      | _ => none
    | none => none) = some ((k, v) :: fs, fr)
  rw [psb_escChars]
  show (match skipWs (':' :: (V ++ ',' :: REST)) with
    | ':' :: r2 =>
      match parseValue F r2 with
      | some (v, r3) =>
        match skipWs r3 with
        | ',' :: r4 =>
          match parseObjMember F r4 with
          | some (fs, r) => some ((⟨k.data⟩, v) :: fs, r)
          | none => none
        | '}' :: r4 => some ([(⟨k.data⟩, v)], r4)
        | _ => none
      | none => none
    | _ => none) = some ((k, v) :: fs, fr)
  rw [skipWs_colon]
  show (match parseValue F (V ++ ',' :: REST) with
    | some (v, r3) =>
      match skipWs r3 with
      | ',' :: r4 =>
        match parseObjMember F r4 with
        | some (fs, r) => some ((⟨k.data⟩, v) :: fs, r)
        | none => none
      | '}' :: r4 => some ([(⟨k.data⟩, v)], r4)
      | _ => none
    | none => none) = some ((k, v) :: fs, fr)
  rw [hv]
  show (match skipWs (',' :: REST) with
    | ',' :: r4 =>
      match parseObjMember F r4 with
      | some (fs, r) => some ((⟨k.data⟩, v) :: fs, r)
      | none => none
    | '}' :: r4 => some ([(⟨k.data⟩, v)], r4)
    | _ => none) = some ((k, v) :: fs, fr)
  rw [skipWs_comma]
  show (match parseObjMember F REST with
    | some (fs, r) => some ((⟨k.data⟩, v) :: fs, r)
    | none => none) = some ((k, v) :: fs, fr)
  rw [hrest]

/-- The final member step, ending in the closing brace. -/
theorem parseObjMember_close (k : String) (V rest : List Char) (v : Json) (F : Nat)
    (hv : parseValue F (V ++ '}' :: rest) = some (v, '}' :: rest)) :
    parseObjMember (F + 1) (serMember k V ++ '}' :: rest) = some ([(k, v)], rest) := by
  rw [serMember]
  rw [show (serStr k ++ ':' :: V) ++ '}' :: rest = serStr k ++ ':' :: (V ++ '}' :: rest) from by
    simp [List.append_assoc]]
  rw [serStr_cons, parseObjMember, skipWs_cons_not_ws _ _ (by decide)]
  show (match parseStringBody (escChars k.data ++ '"' :: (':' :: (V ++ '}' :: rest))) with
    | some (key, r1) =>
      match skipWs r1 with
      | ':' :: r2 =>
        match parseValue F r2 with
        | some (v, r3) =>
          match skipWs r3 with
          | ',' :: r4 =>
            match parseObjMember F r4 with
            | some (fs, r) => some ((⟨key⟩, v) :: fs, r)
            | none => none
          | '}' :: r4 => some ([(⟨key⟩, v)], r4)
          | _ => none
        | none => none
      | _ => none
    | none => none) = some ([(k, v)], rest)
  rw [psb_escChars]
  show (match skipWs (':' :: (V ++ '}' :: rest)) with
    | ':' :: r2 =>
      match parseValue F r2 with
      | some (v, r3) =>
        match skipWs r3 with
        | ',' :: r4 =>
          match parseObjMember F r4 with
          | some (fs, r) => some ((⟨k.data⟩, v) :: fs, r)
          | none => none
        | '}' :: r4 => some ([(⟨k.data⟩, v)], r4)
        | _ => none
      | none => none
    | _ => none) = some ([(k, v)], rest)
  rw [skipWs_colon]
  show (match parseValue F (V ++ '}' :: rest) with
    | some (v, r3) =>
      match skipWs r3 with
      | ',' :: r4 =>
        match parseObjMember F r4 with
        | some (fs, r) => some ((⟨k.data⟩, v) :: fs, r)
        | none => none
      | '}' :: r4 => some ([(⟨k.data⟩, v)], r4)
      | _ => none
    | none => none) = some ([(k, v)], rest)
  rw [hv]
  show (match skipWs ('}' :: rest) with
    | ',' :: r4 =>
      match parseObjMember F r4 with
      | some (fs, r) => some ((⟨k.data⟩, v) :: fs, r)
      | none => none
    | '}' :: r4 => some ([(⟨k.data⟩, v)], r4)
    | _ => none) = some ([(k, v)], rest)
  rw [skipWs_rbrace]
  rfl

theorem parseObjFields_cons (F : Nat) (c : Char) (t : List Char)
    (hc : ¬c = '}') (hws : isWsChar c = false) :
    parseObjFields (F + 1) (c :: t) = parseObjMember F (c :: t) := by
  rw [parseObjFields, skipWs_cons_not_ws _ _ hws]
  split
  · next heq => exact absurd (List.cons.inj heq).1 hc
  · rfl

/-- A to-be-serialized object member: key, serialized value, decoded value. -/
abbrev MemberSpec : Type := String × List Char × Json

theorem joinComma_member_head (x : MemberSpec) (ms : List MemberSpec) (suffix : List Char) :
    joinComma ((x :: ms).map (fun m => serMember m.1 m.2.1)) ++ suffix =
      serMember x.1 x.2.1 ++ (match ms with
        | [] => suffix
        | y :: ys => ',' ::
            (joinComma ((y :: ys).map (fun m => serMember m.1 m.2.1)) ++ suffix)) := by
  cases ms with
  | nil => rw [List.map_cons, List.map_nil, joinComma]
  | cons y ys =>
    rw [List.map_cons, List.map_cons, joinComma]
    case x_2 => simp
    simp [List.append_assoc]

theorem parseObjFields_serMember (F : Nat) (k : String) (V suffix : List Char) :
    parseObjFields (F + 1) (serMember k V ++ suffix) =
      parseObjMember F (serMember k V ++ suffix) := by
  rw [serMember]
  rw [show (serStr k ++ ':' :: V) ++ suffix = serStr k ++ (':' :: V ++ suffix) from by
    simp [List.append_assoc]]
  rw [serStr_cons, parseObjFields_cons _ _ _ (by decide) (by decide), ← serStr_cons]

/-- Parsing a non-empty chain of object members whose values all parse with
fuel at least `need`. -/
theorem parse_objMember_chain (ms : List MemberSpec) :
    ∀ (x : MemberSpec) (F need : Nat) (rest : List Char),
    (∀ m ∈ x :: ms, ∀ (G : Nat) (r : List Char), need ≤ G →
      parseValue G (m.2.1 ++ r) = some (m.2.2, r)) →
    need + ms.length + 1 ≤ F →
    parseObjMember F
      (joinComma ((x :: ms).map (fun m => serMember m.1 m.2.1)) ++ '}' :: rest) =
      some ((x :: ms).map (fun m => (m.1, m.2.2)), rest) := by
  induction ms with
  | nil =>
    intro x F need rest hvals hF
    rw [joinComma_member_head]
    rw [show F = (F - 1) + 1 from by omega]
    rw [parseObjMember_close x.1 x.2.1 rest x.2.2 (F - 1)
      (hvals x (List.mem_cons_self _ _) (F - 1) ('}' :: rest) (by simp at hF; omega))]
    rfl
  | cons y ys ih =>
    intro x F need rest hvals hF
    rw [joinComma_member_head]
    rw [show F = (F - 1) + 1 from by omega]
    rw [parseObjMember_comma x.1 x.2.1
      (joinComma ((y :: ys).map (fun m => serMember m.1 m.2.1)) ++ '}' :: rest) rest
      x.2.2 (F - 1) ((y :: ys).map (fun m => (m.1, m.2.2)))
      (hvals x (List.mem_cons_self _ _) (F - 1) _ (by simp at hF; omega))
      (ih y (F - 1) need rest
        (fun m hm => hvals m (List.mem_cons_of_mem x hm))
        (by simp at hF ⊢; omega))]
    rfl

def optLen : Option (List String) → Nat
  | none => 0
  | some l => l.length

theorem parse_serOptList (o : Option (List String)) (f : Nat) (rest : List Char) :
    parseValue (f + optLen o + 3) (serOptList o ++ rest) = some (jsonOfOptList o, rest) := by
  cases o with
  | none =>
    rw [serOptList, jsonOfOptList]
    rw [show f + optLen none + 3 = (f + 2) + 1 from by simp [optLen]]
    exact parse_null (f + 2) rest
  | some l =>
    rw [serOptList, jsonOfOptList, show optLen (some l) = l.length from rfl]
    exact parse_serStrList l f rest

theorem parse_ctxMember (tail : List (String × String)) :
    ∀ (p : String × String) (f : Nat) (rest : List Char),
    parseObjMember (f + tail.length + 2)
      (joinComma ((p :: tail).map (fun q => serMember q.1 (serStr q.2))) ++ '}' :: rest) =
      some ((p :: tail).map (fun q => (q.1, Json.str q.2)), rest) := by
  induction tail with
  | nil =>
    intro p f rest
    rw [List.map_cons, List.map_nil, joinComma]
    rw [show f + List.length ([] : List (String × String)) + 2 = (f + 1) + 1 from by simp]
    rw [parseObjMember_close p.1 (serStr p.2) rest (.str p.2) (f + 1)
      (parse_serStr p.2 f ('}' :: rest))]
    rfl
  | cons q qs ih =>
    intro p f rest
    rw [List.map_cons, List.map_cons, joinComma]
    case x_2 => simp
    rw [show (serMember p.1 (serStr p.2) ++
        ',' :: joinComma (serMember q.1 (serStr q.2) :: List.map (fun q => serMember q.1 (serStr q.2)) qs)) ++
        '}' :: rest =
      serMember p.1 (serStr p.2) ++
        ',' :: (joinComma ((q :: qs).map (fun q => serMember q.1 (serStr q.2))) ++ '}' :: rest) from by
        simp [List.append_assoc]]
    rw [show f + (q :: qs).length + 2 = (f + qs.length + 2) + 1 from by
      simp only [List.length_cons]
      omega]
    rw [parseObjMember_comma p.1 (serStr p.2)
      (joinComma ((q :: qs).map (fun q => serMember q.1 (serStr q.2))) ++ '}' :: rest) rest
      (.str p.2) (f + qs.length + 2) ((q :: qs).map (fun q => (q.1, Json.str q.2)))
      (parse_serStr p.2 (f + qs.length + 1) _)
      (ih q f rest)]
    rfl

theorem parse_serContext (ctx : List (String × String)) (f : Nat) (rest : List Char) :
    parseValue (f + ctx.length + 3) (serContext ctx ++ rest) =
      some (.obj (ctx.map (fun p => (p.1, Json.str p.2))), rest) := by
  rw [serContext]
  rw [show ('{' :: (joinComma (ctx.map (fun p => serMember p.1 (serStr p.2))) ++ ['}'])) ++ rest =
    '{' :: (joinComma (ctx.map (fun p => serMember p.1 (serStr p.2))) ++ '}' :: rest) from by
      simp]
  rw [show f + ctx.length + 3 = (f + ctx.length + 2) + 1 from rfl]
  rw [parseValue, skipWs_cons_not_ws _ _ (by decide)]
  show (match parseObjFields (f + ctx.length + 2)
      (joinComma (ctx.map (fun p => serMember p.1 (serStr p.2))) ++ '}' :: rest) with
    | some (fs, r) => some (Json.obj fs, r)
    | none => none) = some (.obj (ctx.map (fun p => (p.1, Json.str p.2))), rest)
  cases ctx with
  | nil =>
    rw [List.map_nil, joinComma, List.nil_append]
    rw [show f + List.length ([] : List (String × String)) + 2 = (f + 1) + 1 from by simp]
    rw [parseObjFields, skipWs_rbrace]
    rfl
  | cons p ps =>
    rw [show f + (p :: ps).length + 2 = (f + ps.length + 2) + 1 from by
      simp only [List.length_cons]
      omega]
    have hjoin : joinComma ((p :: ps).map (fun q => serMember q.1 (serStr q.2))) ++ '}' :: rest =
        serMember p.1 (serStr p.2) ++ (match ps with
          | [] => '}' :: rest
          | q :: qs => ',' ::
              (joinComma ((q :: qs).map (fun q => serMember q.1 (serStr q.2))) ++ '}' :: rest)) := by
      cases ps with
      | nil => rw [List.map_cons, List.map_nil, joinComma]
      | cons q qs =>
        rw [List.map_cons, List.map_cons, joinComma]
        case x_2 => simp
        simp [List.append_assoc]
    rw [hjoin, parseObjFields_serMember, ← hjoin]
    rw [parse_ctxMember ps p f rest]

def payloadFuel (P : Payload) : Nat :=
  P.objectives.length + P.constraints.length + P.success_criteria.length +
    optLen P.data_to_extract + optLen P.actions_to_perform + P.context.length + 12

theorem parse_serializePayload (P : Payload) (f : Nat) (rest : List Char) :
    parseValue (f + payloadFuel P) (serializePayload P ++ rest) =
      some (.obj (payloadJson P), rest) := by
  obtain ⟨de, ob, co, sc, dt, ac, cx⟩ := P
  have hvals : ∀ m ∈ (("description", serStr de, Json.str de) : MemberSpec) ::
      [("objectives", serStrList ob, Json.arr (ob.map Json.str)),
       ("constraints", serStrList co, Json.arr (co.map Json.str)),
       ("success_criteria", serStrList sc, Json.arr (sc.map Json.str)),
       ("data_to_extract", serOptList dt, jsonOfOptList dt),
       ("actions_to_perform", serOptList ac, jsonOfOptList ac),
       ("context", serContext cx, Json.obj (cx.map (fun p => (p.1, Json.str p.2))))],
      ∀ (G : Nat) (r : List Char),
      f + ob.length + co.length + sc.length + optLen dt + optLen ac + cx.length + 3 ≤ G →
      parseValue G (m.2.1 ++ r) = some (m.2.2, r) := by
    intro m hm G r hG
    simp only [List.mem_cons, List.not_mem_nil, or_false] at hm
    rcases hm with rfl | rfl | rfl | rfl | rfl | rfl | rfl
    · rw [show G = (G - 1) + 1 from by omega]
      exact parse_serStr de (G - 1) r
    · rw [show G = (G - (ob.length + 3)) + ob.length + 3 from by omega]
      exact parse_serStrList ob (G - (ob.length + 3)) r
    · rw [show G = (G - (co.length + 3)) + co.length + 3 from by omega]
      exact parse_serStrList co (G - (co.length + 3)) r
    · rw [show G = (G - (sc.length + 3)) + sc.length + 3 from by omega]
      exact parse_serStrList sc (G - (sc.length + 3)) r
    · rw [show G = (G - (optLen dt + 3)) + optLen dt + 3 from by omega]
      exact parse_serOptList dt (G - (optLen dt + 3)) r
    · rw [show G = (G - (optLen ac + 3)) + optLen ac + 3 from by omega]
      exact parse_serOptList ac (G - (optLen ac + 3)) r
    · rw [show G = (G - (cx.length + 3)) + cx.length + 3 from by omega]
      exact parse_serContext cx (G - (cx.length + 3)) r
  have hchain := parse_objMember_chain
    [("objectives", serStrList ob, Json.arr (ob.map Json.str)),
     ("constraints", serStrList co, Json.arr (co.map Json.str)),
     ("success_criteria", serStrList sc, Json.arr (sc.map Json.str)),
     ("data_to_extract", serOptList dt, jsonOfOptList dt),
     ("actions_to_perform", serOptList ac, jsonOfOptList ac),
     ("context", serContext cx, Json.obj (cx.map (fun p => (p.1, Json.str p.2))))]
    ("description", serStr de, Json.str de)
    (f + ob.length + co.length + sc.length + optLen dt + optLen ac + cx.length + 3 + 7)
    (f + ob.length + co.length + sc.length + optLen dt + optLen ac + cx.length + 3)
    rest hvals (by simp)
  rw [serializePayload]
  have houter : ∀ (L : List (List Char)),
      ('{' :: (joinComma L ++ ['}'])) ++ rest = '{' :: (joinComma L ++ '}' :: rest) := by
    intro L
    simp
  rw [houter]
  rw [show f + payloadFuel ⟨de, ob, co, sc, dt, ac, cx⟩ =
    ((f + ob.length + co.length + sc.length + optLen dt + optLen ac + cx.length + 3 + 7) + 1) + 1
    from by simp only [payloadFuel]; omega]
  rw [parseValue, skipWs_cons_not_ws _ _ (by decide)]
  show (match parseObjFields
      ((f + ob.length + co.length + sc.length + optLen dt + optLen ac + cx.length + 3 + 7) + 1)
      (joinComma
        [serMember "description" (serStr de),
         serMember "objectives" (serStrList ob),
         serMember "constraints" (serStrList co),
         serMember "success_criteria" (serStrList sc),
         serMember "data_to_extract" (serOptList dt),
         serMember "actions_to_perform" (serOptList ac),
         serMember "context" (serContext cx)] ++ '}' :: rest) with
    | some (fs, r) => some (Json.obj fs, r)
    | none => none) =
    some (.obj (payloadJson ⟨de, ob, co, sc, dt, ac, cx⟩), rest)
  rw [show ([serMember "description" (serStr de),
         serMember "objectives" (serStrList ob),
         serMember "constraints" (serStrList co),
         serMember "success_criteria" (serStrList sc),
         serMember "data_to_extract" (serOptList dt),
         serMember "actions_to_perform" (serOptList ac),
         serMember "context" (serContext cx)] : List (List Char)) =
    ((("description", serStr de, Json.str de) ::
      [("objectives", serStrList ob, Json.arr (ob.map Json.str)),
       ("constraints", serStrList co, Json.arr (co.map Json.str)),
       ("success_criteria", serStrList sc, Json.arr (sc.map Json.str)),
       ("data_to_extract", serOptList dt, jsonOfOptList dt),
       ("actions_to_perform", serOptList ac, jsonOfOptList ac),
       ("context", serContext cx, Json.obj (cx.map (fun p => (p.1, Json.str p.2))))]).map
      (fun m => serMember m.1 m.2.1)) from rfl]
  rw [joinComma_member_head] at hchain ⊢
  rw [parseObjFields_serMember, hchain]
  rfl

theorem skipWs_append_nonws_head (A : List Char) (c : Char) (t : List Char)
    (hc : isWsChar c = false) :
    skipWs (A ++ c :: t) = skipWs A ++ c :: t := by
  induction A with
  | nil => rw [List.nil_append, skipWs_cons_not_ws _ _ hc, skipWs, List.nil_append]
  | cons a A' ih =>
    rw [List.cons_append, skipWs, skipWs]
    by_cases ha : isWsChar a = true
    · rw [if_pos ha, if_pos ha, ih]
    · rw [if_neg ha, if_neg ha, List.cons_append]

/-- Stripping prose around a brace-delimited chunk: the leading whitespace of
`pre` and the trailing whitespace of `post` go away, nothing else moves. -/
theorem stripChars_decomp (pre post T : List Char) :
    stripChars (pre ++ ('{' :: T ++ ['}']) ++ post) =
      skipWs pre ++ ('{' :: T ++ ['}']) ++ (skipWs post.reverse).reverse := by
  rw [stripChars]
  have h1 : pre ++ ('{' :: T ++ ['}']) ++ post = pre ++ '{' :: (T ++ ['}'] ++ post) := by
    simp [List.append_assoc]
  rw [h1, skipWs_append_nonws_head pre '{' _ (by decide)]
  have h2 : (skipWs pre ++ '{' :: (T ++ ['}'] ++ post)).reverse =
      post.reverse ++ '}' :: (T.reverse ++ '{' :: (skipWs pre).reverse) := by
    simp [List.reverse_append, List.append_assoc]
  rw [h2, skipWs_append_nonws_head post.reverse '}' _ (by decide)]
  simp [List.reverse_append, List.append_assoc]

theorem skipWs_of_all_ws_eq_nil (cs : List Char) (h : ∀ c ∈ cs, isWsChar c = true) :
    skipWs cs = [] := skipWs_of_all_ws cs h

theorem skipWs_head_not_ws (cs : List Char) (c : Char) (t : List Char)
    (h : skipWs cs = c :: t) : isWsChar c = false := by
  induction cs with
  | nil => simp [skipWs] at h
  | cons a rest ih =>
    rw [skipWs] at h
    by_cases ha : isWsChar a = true
    · rw [if_pos ha] at h
      exact ih h
    · rw [if_neg ha] at h
      cases h
      exact Bool.not_eq_true _ ▸ (by simpa using ha)

theorem skipWs_ne_nil_of_not_all (cs : List Char) (h : ¬∀ c ∈ cs, isWsChar c = true) :
    skipWs cs ≠ [] := by
  induction cs with
  | nil => exact absurd (by simp) h
  | cons a rest ih =>
    rw [skipWs]
    by_cases ha : isWsChar a = true
    · rw [if_pos ha]
      refine ih (fun hall => h ?_)
      intro c hc
      rcases List.mem_cons.1 hc with rfl | hc'
      · exact ha
      · exact hall c hc'
    · rw [if_neg ha]
      simp

theorem mem_of_mem_skipWs (c : Char) (cs : List Char) (h : c ∈ skipWs cs) : c ∈ cs :=
  mem_skipWs c cs h

set_option maxHeartbeats 1000000 in
/-- A parse producing an object must have seen an opening brace. -/
theorem parseValue_obj_head (f : Nat) (cs : List Char) (fs : List (String × Json))
    (r : List Char) (h : parseValue f cs = some (.obj fs, r)) :
    ∃ t, skipWs cs = '{' :: t := by
  cases f with
  | zero => rw [parseValue] at h; exact absurd h (by simp)
  | succ f =>
    rw [parseValue] at h
    split at h
    · next heq => exact ⟨_, heq⟩
    · next heq =>
      cases hx : parseArrElems f _ with
      | none => rw [hx] at h; exact absurd h (by simp)
      | some p => rw [hx] at h; obtain ⟨es, r'⟩ := p; exact absurd h (by simp)
    · next heq =>
      cases hx : parseStringBody _ with
      | none => rw [hx] at h; exact absurd h (by simp)
      | some p => rw [hx] at h; obtain ⟨s, r'⟩ := p; exact absurd h (by simp)
    · exact absurd h (by simp)
    · exact absurd h (by simp)
    · exact absurd h (by simp)
    · next heq =>
      cases hx : parseNumber _ with
      | none => rw [hx] at h; exact absurd h (by simp)
      | some p => rw [hx] at h; obtain ⟨n, r'⟩ := p; exact absurd h (by simp)

theorem jsonLoads_obj_head (cs : List Char) (fs : List (String × Json))
    (h : jsonLoads cs = some (.obj fs)) : ∃ t, skipWs cs = '{' :: t := by
  rw [jsonLoads] at h
  cases hp : parseValue (3 * cs.length + 3) cs with
  | none => rw [hp] at h; exact absurd h (by simp)
  | some vr =>
    obtain ⟨v, r⟩ := vr
    rw [hp] at h
    replace h : (if skipWs r = [] then some v else none) = some (Json.obj fs) := h
    by_cases hr : skipWs r = []
    · rw [if_pos hr] at h
      cases h
      exact parseValue_obj_head _ _ _ _ hp
    · rw [if_neg hr] at h
      exact absurd h (by simp)

/-- Strategy 1 rejects any text whose first non-space character is not `{`. -/
theorem candidateObj_not_lbrace (cs : List Char) (c : Char) (t : List Char)
    (hcs : skipWs cs = c :: t) (hc : ¬c = '{') : candidateObj cs = none := by
  rw [candidateObj]
  cases hj : jsonLoads cs with
  | none => rfl
  | some v =>
    cases v with
    | obj fs =>
      rcases jsonLoads_obj_head cs fs hj with ⟨t', ht'⟩
      rw [hcs] at ht'
      exact absurd (List.cons.inj ht').1 hc
    | null => rfl
    | bool b => rfl
    | num n => rfl
    | str s => rfl
    | arr es => rfl

/-- Strategy 1 rejects a parse with non-space trailing input. -/
theorem candidateObj_trailing (A B : List Char) (v : Json)
    (hp : parseValue (3 * (A ++ B).length + 3) (A ++ B) = some (v, B))
    (hb : skipWs B ≠ []) : candidateObj (A ++ B) = none := by
  rw [candidateObj, jsonLoads, hp]
  show (match (if skipWs B = [] then some v else none : Option Json) with
    | some (Json.obj fs) => some (Json.obj fs)
    | _ => none) = none
  rw [if_neg hb]

abbrev braceFree (cs : List Char) : Prop := ∀ c ∈ cs, ¬c = '{' ∧ ¬c = '}'

theorem braceFree_append (a b : List Char) (ha : braceFree a) (hb : braceFree b) :
    braceFree (a ++ b) := by
  intro c hc
  rcases List.mem_append.1 hc with h | h
  · exact ha c h
  · exact hb c h

theorem braceFree_cons (c : Char) (t : List Char) (hc : ¬c = '{' ∧ ¬c = '}')
    (ht : braceFree t) : braceFree (c :: t) := by
  intro d hd
  rcases List.mem_cons.1 hd with rfl | hd'
  · exact hc
  · exact ht d hd'

theorem braceFree_nil : braceFree [] := by intro c hc; simp at hc

/-- The regex scanner consumes non-brace prose and emits the first match. -/
theorem regexCandidatesF_skip (a : List Char) (ha : ∀ c ∈ a, ¬c = '{') :
    ∀ (F : Nat) (X m r : List Char), a.length < F → braceMatch false X = some (m, r) →
    ∃ tail, regexCandidatesF F (a ++ '{' :: X) = ('{' :: m) :: tail := by
  induction a with
  | nil =>
    intro F X m r hF hbm
    obtain ⟨F', rfl⟩ : ∃ F', F = F' + 1 := ⟨F - 1, by omega⟩
    rw [List.nil_append, regexCandidatesF, if_pos rfl, hbm]
    exact ⟨regexCandidatesF F' r, rfl⟩
  | cons c a' ih =>
    intro F X m r hF hbm
    obtain ⟨F', rfl⟩ : ∃ F', F = F' + 1 := ⟨F - 1, by omega⟩
    rw [List.cons_append, regexCandidatesF, if_neg (ha c (List.mem_cons_self _ _))]
    exact ih (fun d hd => ha d (List.mem_cons_of_mem _ hd)) F' X m r
      (by simp at hF; omega) hbm

/-- The brace scanner passes over brace-free characters. -/
theorem braceMatch_skip (a : List Char) (ha : braceFree a) (d : Bool) (X : List Char) :
    braceMatch d (a ++ X) = (match braceMatch d X with
      | some (m, r) => some (a ++ m, r)
      | none => none) := by
  induction a with
  | nil =>
    rw [List.nil_append]
    cases braceMatch d X with
    | none => rfl
    | some p => obtain ⟨m, r⟩ := p; rfl
  | cons c a' ih =>
    have hc := ha c (List.mem_cons_self _ _)
    rw [List.cons_append, braceMatch, if_neg hc.2, if_neg hc.1,
      ih (fun e he => ha e (List.mem_cons_of_mem _ he))]
    cases braceMatch d X with
    | none => rfl
    | some p => obtain ⟨m, r⟩ := p; rfl

/-- The greedy match on the serialized payload's brace structure. -/
theorem braceMatch_payload (A B X : List Char) (hA : braceFree A) (hB : braceFree B) :
    braceMatch false (A ++ '{' :: (B ++ '}' :: '}' :: X)) =
      some (A ++ '{' :: (B ++ '}' :: ['}']), X) := by
  have hbm1 : braceMatch false ('}' :: X) = some (['}'], X) := by
    rw [braceMatch, if_pos rfl, if_neg (by decide)]
  have hbm2 : braceMatch true ('}' :: '}' :: X) = some (['}', '}'], X) := by
    rw [braceMatch, if_pos rfl, if_pos rfl, hbm1]
  rw [braceMatch_skip A hA]
  rw [braceMatch, if_neg (by decide), if_pos rfl, if_neg (by decide)]
  show (match (match braceMatch true (B ++ '}' :: '}' :: X) with
      | some (m, rest) => some ('{' :: m, rest)
      | none => none) with
    | some (m, r) => some (A ++ m, r)
    | none => none) = some (A ++ '{' :: (B ++ '}' :: ['}']), X)
  rw [braceMatch_skip B hB, hbm2]

abbrev strBraceFree (s : String) : Prop := ∀ c ∈ s.data, ¬c = '{' ∧ ¬c = '}'

abbrev payloadBraceFree (P : Payload) : Prop :=
  strBraceFree P.description ∧
  (∀ s ∈ P.objectives, strBraceFree s) ∧
  (∀ s ∈ P.constraints, strBraceFree s) ∧
  (∀ s ∈ P.success_criteria, strBraceFree s) ∧
  (∀ l, P.data_to_extract = some l → ∀ s ∈ l, strBraceFree s) ∧
  (∀ l, P.actions_to_perform = some l → ∀ s ∈ l, strBraceFree s) ∧
  (∀ p ∈ P.context, strBraceFree p.1 ∧ strBraceFree p.2)

theorem braceFree_escChars (s : List Char) (h : ∀ c ∈ s, ¬c = '{' ∧ ¬c = '}') :
    braceFree (escChars s) := by
  induction s with
  | nil => exact braceFree_nil
  | cons c cs ih =>
    rw [escChars]
    have hc := h c (List.mem_cons_self _ _)
    have ht := ih (fun d hd => h d (List.mem_cons_of_mem _ hd))
    by_cases hcc : c = '"' ∨ c = '\\'
    · rw [if_pos hcc]
      exact braceFree_cons _ _ (by decide) (braceFree_cons _ _ hc ht)
    · rw [if_neg hcc]
      exact braceFree_cons _ _ hc ht

theorem braceFree_serStr (s : String) (h : strBraceFree s) : braceFree (serStr s) := by
  rw [serStr]
  exact braceFree_cons _ _ (by decide)
    (braceFree_append _ _ (braceFree_escChars _ h) (by intro c hc; simp at hc; simp [hc]))

theorem braceFree_joinComma (ls : List (List Char)) (h : ∀ l ∈ ls, braceFree l) :
    braceFree (joinComma ls) := by
  induction ls with
  | nil => exact braceFree_nil
  | cons x xs ih =>
    cases xs with
    | nil =>
      rw [joinComma]
      exact h x (List.mem_cons_self _ _)
    | cons y ys =>
      rw [joinComma]
      case x_2 => simp
      exact braceFree_append _ _ (h x (List.mem_cons_self _ _))
        (braceFree_cons _ _ (by decide)
          (ih (fun l hl => h l (List.mem_cons_of_mem _ hl))))

theorem braceFree_serStrList (l : List String) (h : ∀ s ∈ l, strBraceFree s) :
    braceFree (serStrList l) := by
  rw [serStrList]
  refine braceFree_cons _ _ (by decide) (braceFree_append _ _ ?_ ?_)
  · refine braceFree_joinComma _ ?_
    intro x hx
    rcases List.mem_map.1 hx with ⟨s, hs, rfl⟩
    exact braceFree_serStr s (h s hs)
  · intro c hc
    simp at hc
    simp [hc]

theorem braceFree_serOptList (o : Option (List String))
    (h : ∀ l, o = some l → ∀ s ∈ l, strBraceFree s) : braceFree (serOptList o) := by
  cases o with
  | none =>
    rw [serOptList]
    intro c hc
    refine ⟨fun hq => ?_, fun hq => ?_⟩ <;>
      (subst hq; exact absurd hc (by decide))
  | some l => exact braceFree_serStrList l (h l rfl)

theorem braceFree_serMember (k : String) (V : List Char) (hk : strBraceFree k)
    (hV : braceFree V) : braceFree (serMember k V) := by
  rw [serMember]
  exact braceFree_append _ _ (braceFree_serStr k hk) (braceFree_cons _ _ (by decide) hV)

theorem strBraceFree_lit (s : String) (h : braceFree s.data) : strBraceFree s := h

theorem joinComma_length_ge (ls : List (List Char)) (h : ∀ x ∈ ls, 1 ≤ x.length) :
    ls.length ≤ (joinComma ls).length := by
  induction ls with
  | nil => simp
  | cons x xs ih =>
    cases xs with
    | nil =>
      rw [joinComma]
      have := h x (List.mem_cons_self _ _)
      simp
      omega
    | cons y ys =>
      rw [joinComma]
      case x_2 => simp
      have hx := h x (List.mem_cons_self _ _)
      have ht := ih (fun l hl => h l (List.mem_cons_of_mem _ hl))
      simp only [List.length_append, List.length_cons] at *
      omega

theorem serStr_length_ge (s : String) : 2 ≤ (serStr s).length := by
  rw [serStr]
  simp

theorem serStrList_length_ge (l : List String) : l.length + 2 ≤ (serStrList l).length := by
  rw [serStrList]
  have := joinComma_length_ge (l.map serStr) (by
    intro x hx
    rcases List.mem_map.1 hx with ⟨s, hs, rfl⟩
    have := serStr_length_ge s
    omega)
  simp only [List.length_cons, List.length_append, List.length_map] at *
  omega

theorem serOptList_length_ge (o : Option (List String)) :
    optLen o + 2 ≤ (serOptList o).length := by
  cases o with
  | none => simp [serOptList, optLen]
  | some l =>
    rw [serOptList, show optLen (some l) = l.length from rfl]
    exact serStrList_length_ge l

theorem serContext_length_ge (cx : List (String × String)) :
    cx.length + 2 ≤ (serContext cx).length := by
  rw [serContext]
  have := joinComma_length_ge (cx.map (fun p => serMember p.1 (serStr p.2))) (by
    intro x hx
    rcases List.mem_map.1 hx with ⟨p, hp, rfl⟩
    rw [serMember]
    have := serStr_length_ge p.1
    simp only [List.length_append, List.length_cons]
    omega)
  simp only [List.length_cons, List.length_append, List.length_map] at *
  omega

theorem serMember_length_ge (k : String) (V : List Char) :
    V.length + 3 ≤ (serMember k V).length := by
  rw [serMember]
  have := serStr_length_ge k
  simp only [List.length_append, List.length_cons]
  omega

theorem payloadFuel_le_length (P : Payload) :
    payloadFuel P ≤ (serializePayload P).length := by
  obtain ⟨de, ob, co, sc, dt, ac, cx⟩ := P
  rw [serializePayload, payloadFuel]
  rw [joinComma]
  case x_2 => simp
  rw [joinComma]
  case x_2 => simp
  rw [joinComma]
  case x_2 => simp
  rw [joinComma]
  case x_2 => simp
  rw [joinComma]
  case x_2 => simp
  rw [joinComma]
  case x_2 => simp
  rw [joinComma]
  have hm1 := serMember_length_ge "description" (serStr de)
  have hm2 := serMember_length_ge "objectives" (serStrList ob)
  have hm3 := serMember_length_ge "constraints" (serStrList co)
  have hm4 := serMember_length_ge "success_criteria" (serStrList sc)
  have hm5 := serMember_length_ge "data_to_extract" (serOptList dt)
  have hm6 := serMember_length_ge "actions_to_perform" (serOptList ac)
  have hm7 := serMember_length_ge "context" (serContext cx)
  have hv2 := serStrList_length_ge ob
  have hv3 := serStrList_length_ge co
  have hv4 := serStrList_length_ge sc
  have hv5 := serOptList_length_ge dt
  have hv6 := serOptList_length_ge ac
  have hv7 := serContext_length_ge cx
  simp only [List.length_cons, List.length_append] at *
  omega

theorem serializePayload_shape (P : Payload) (h : payloadBraceFree P) :
    ∃ A B, serializePayload P = '{' :: (A ++ '{' :: (B ++ '}' :: ['}'])) ∧
      braceFree A ∧ braceFree B := by
  obtain ⟨de, ob, co, sc, dt, ac, cx⟩ := P
  obtain ⟨h1, h2, h3, h4, h5, h6, h7⟩ := h
  refine ⟨serMember "description" (serStr de) ++ ',' ::
      (serMember "objectives" (serStrList ob) ++ ',' ::
      (serMember "constraints" (serStrList co) ++ ',' ::
      (serMember "success_criteria" (serStrList sc) ++ ',' ::
      (serMember "data_to_extract" (serOptList dt) ++ ',' ::
      (serMember "actions_to_perform" (serOptList ac) ++ ',' ::
      (serStr "context" ++ [':'])))))),
    joinComma (cx.map (fun p => serMember p.1 (serStr p.2))), ?_, ?_, ?_⟩
  · rw [serializePayload]
    rw [joinComma]
    case x_2 => simp
    rw [joinComma]
    case x_2 => simp
    rw [joinComma]
    case x_2 => simp
    rw [joinComma]
    case x_2 => simp
    rw [joinComma]
    case x_2 => simp
    rw [joinComma]
    case x_2 => simp
    rw [joinComma]
    rw [show serMember "context" (serContext cx) =
      serStr "context" ++ ':' :: ('{' ::
        (joinComma (cx.map (fun p => serMember p.1 (serStr p.2))) ++ ['}'])) from by
        rw [serMember, serContext]]
    simp [List.append_assoc]
  · have hkey : ∀ k : String, braceFree k.data → strBraceFree k := fun _ hh => hh
    refine braceFree_append _ _
      (braceFree_serMember _ _ (by decide) (braceFree_serStr de h1))
      (braceFree_cons _ _ (by decide) ?_)
    refine braceFree_append _ _
      (braceFree_serMember _ _ (by decide)
        (braceFree_serStrList ob h2)) (braceFree_cons _ _ (by decide) ?_)
    refine braceFree_append _ _
      (braceFree_serMember _ _ (by decide)
        (braceFree_serStrList co h3)) (braceFree_cons _ _ (by decide) ?_)
    refine braceFree_append _ _
      (braceFree_serMember _ _ (by decide)
        (braceFree_serStrList sc h4)) (braceFree_cons _ _ (by decide) ?_)
    refine braceFree_append _ _
      (braceFree_serMember _ _ (by decide)
        (braceFree_serOptList dt h5)) (braceFree_cons _ _ (by decide) ?_)
    refine braceFree_append _ _
      (braceFree_serMember _ _ (by decide)
        (braceFree_serOptList ac h6)) (braceFree_cons _ _ (by decide) ?_)
    refine braceFree_append _ _
      (braceFree_serStr _ (by decide))
      (by decide)
  · refine braceFree_joinComma _ ?_
    intro x hx
    rcases List.mem_map.1 hx with ⟨p, hp, rfl⟩
    exact braceFree_serMember _ _ (h7 p hp).1 (braceFree_serStr _ (h7 p hp).2)

/-- `json.loads` accepts the full serialized payload. -/
theorem jsonLoads_serializePayload (P : Payload) :
    jsonLoads (serializePayload P) = some (.obj (payloadJson P)) := by
  have hfu := payloadFuel_le_length P
  have h0 := parse_serializePayload P
    (3 * (serializePayload P).length + 3 - payloadFuel P) []
  rw [List.append_nil] at h0
  rw [jsonLoads, show 3 * (serializePayload P).length + 3 =
    3 * (serializePayload P).length + 3 - payloadFuel P + payloadFuel P from by omega, h0]
  rfl

/-- Strategy 1 accepts the bare serialized payload. -/
theorem candidateObj_serializePayload (P : Payload) :
    candidateObj (serializePayload P) = some (.obj (payloadJson P)) := by
  rw [candidateObj, jsonLoads_serializePayload]

/-- The extractor's answer when strategy 1 succeeds. -/
theorem extract_eq_of_strategy1 (text : String) (j : Json)
    (hne : text.isEmpty = false)
    (h1 : candidateObj (stripChars text.data) = some j) :
    extract_json_from_text text = some j := by
  rw [extract_json_from_text, if_neg (by simp [hne])]
  simp only [h1]

/-- The extractor's answer when strategy 1 fails and strategy 2 succeeds. -/
theorem extract_eq_of_strategy2 (text : String) (j : Json)
    (hne : text.isEmpty = false)
    (h1 : candidateObj (stripChars text.data) = none)
    (h2 : (regexCandidates (stripChars text.data)).findSome? candidateObj = some j) :
    extract_json_from_text text = some j := by
  rw [extract_json_from_text, if_neg (by simp [hne])]
  simp only [h1, h2]

/-- Embedding the serialized payload in prose: provided the leading prose has
no opening brace and the payload's strings are brace-free, the extractor
recovers exactly the payload object, whichever strategy fires. -/
theorem extract_payload (P : Payload) (pre post : List Char)
    (hP : payloadBraceFree P) (hpre : ∀ c ∈ pre, ¬c = '{') :
    extract_json_from_text ⟨pre ++ serializePayload P ++ post⟩ =
      some (.obj (payloadJson P)) := by
  obtain ⟨A, B, hser, hA, hB⟩ := serializePayload_shape P hP
  have hser' : serializePayload P = '{' :: ((A ++ '{' :: (B ++ ['}'])) ++ ['}']) := by
    rw [hser]; simp
  have hne : (⟨pre ++ serializePayload P ++ post⟩ : String).isEmpty = false := by
    rw [Bool.eq_false_iff]
    intro hemp
    have hdata : pre ++ serializePayload P ++ post = [] :=
      congrArg String.data ((String.isEmpty_iff _).1 hemp)
    rw [hser'] at hdata
    simp at hdata
  have hstrip : stripChars (pre ++ serializePayload P ++ post) =
      skipWs pre ++ serializePayload P ++ (skipWs post.reverse).reverse := by
    rw [hser']
    exact stripChars_decomp pre post _
  have hcand : candidateObj (serializePayload P) = some (.obj (payloadJson P)) :=
    candidateObj_serializePayload P
  have hX : serializePayload P ++ (skipWs post.reverse).reverse =
      '{' :: (A ++ '{' :: (B ++ '}' :: '}' :: (skipWs post.reverse).reverse)) := by
    rw [hser]; simp
  have hfind : (regexCandidates (skipWs pre ++ serializePayload P ++
        (skipWs post.reverse).reverse)).findSome? candidateObj =
      some (.obj (payloadJson P)) := by
    have htrim : skipWs pre ++ serializePayload P ++ (skipWs post.reverse).reverse =
        skipWs pre ++ '{' :: (A ++ '{' :: (B ++ '}' :: '}' ::
          (skipWs post.reverse).reverse)) := by
      rw [List.append_assoc, hX]
    rw [regexCandidates, htrim]
    obtain ⟨tail, htail⟩ := regexCandidatesF_skip (skipWs pre)
      (fun c hc => hpre c (mem_of_mem_skipWs c pre hc))
      (skipWs pre ++ '{' :: (A ++ '{' :: (B ++ '}' :: '}' ::
        (skipWs post.reverse).reverse))).length
      (A ++ '{' :: (B ++ '}' :: '}' :: (skipWs post.reverse).reverse))
      (A ++ '{' :: (B ++ '}' :: ['}']))
      ((skipWs post.reverse).reverse)
      (by simp only [List.length_append, List.length_cons]; omega)
      (braceMatch_payload A B _ hA hB)
    rw [htail, List.findSome?_cons,
      show '{' :: (A ++ '{' :: (B ++ '}' :: ['}'])) = serializePayload P from hser.symm,
      hcand]
  by_cases hPRE : skipWs pre = []
  · by_cases hPOST : (skipWs post.reverse).reverse = ([] : List Char)
    · refine extract_eq_of_strategy1 _ _ hne ?_
      show candidateObj (stripChars (pre ++ serializePayload P ++ post)) = _
      rw [hstrip, hPRE, hPOST, List.nil_append, List.append_nil]
      exact hcand
    · refine extract_eq_of_strategy2 _ _ hne ?_ ?_
      · show candidateObj (stripChars (pre ++ serializePayload P ++ post)) = none
        rw [hstrip, hPRE, List.nil_append]
        have hfu := payloadFuel_le_length P
        have hp := parse_serializePayload P
          (3 * (serializePayload P ++ (skipWs post.reverse).reverse).length + 3 -
            payloadFuel P)
          ((skipWs post.reverse).reverse)
        rw [show 3 * (serializePayload P ++ (skipWs post.reverse).reverse).length + 3 -
            payloadFuel P + payloadFuel P
            = 3 * (serializePayload P ++ (skipWs post.reverse).reverse).length + 3 from by
          simp only [List.length_append]
          omega] at hp
        refine candidateObj_trailing (serializePayload P) _ _ hp ?_
        have hrev : skipWs post.reverse ≠ [] := by
          intro hh
          exact hPOST (by rw [hh]; rfl)
        obtain ⟨c, t, hct⟩ : ∃ c t, skipWs post.reverse = c :: t := by
          cases hcc : skipWs post.reverse with
          | nil => exact absurd hcc hrev
          | cons c t => exact ⟨c, t, rfl⟩
        have hcw := skipWs_head_not_ws post.reverse c t hct
        have hcm : c ∈ (skipWs post.reverse).reverse := by
          rw [hct]; simp
        refine skipWs_ne_nil_of_not_all _ (fun hall => ?_)
        rw [hall c hcm] at hcw
        exact absurd hcw (by simp)
      · show (regexCandidates (stripChars (pre ++ serializePayload P ++ post))).findSome?
            candidateObj = some (.obj (payloadJson P))
        rw [hstrip]
        exact hfind
  · refine extract_eq_of_strategy2 _ _ hne ?_ ?_
    · show candidateObj (stripChars (pre ++ serializePayload P ++ post)) = none
      rw [hstrip]
      obtain ⟨c0, p0, hcc⟩ : ∃ c0 p0, skipWs pre = c0 :: p0 := by
        cases hcc : skipWs pre with
        | nil => exact absurd hcc hPRE
        | cons c0 p0 => exact ⟨c0, p0, rfl⟩
      have hc0w := skipWs_head_not_ws pre c0 p0 hcc
      have hc0 : ¬c0 = '{' := hpre c0 (mem_of_mem_skipWs c0 pre (by rw [hcc]; simp))
      refine candidateObj_not_lbrace _ c0
        (p0 ++ serializePayload P ++ (skipWs post.reverse).reverse) ?_ hc0
      rw [hcc, List.cons_append, List.cons_append]
      exact skipWs_cons_not_ws c0 _ hc0w
    · show (regexCandidates (stripChars (pre ++ serializePayload P ++ post))).findSome?
          candidateObj = some (.obj (payloadJson P))
      rw [hstrip]
      exact hfind

/-- The item loop accepts any list of JSON strings. -/
theorem checkItemsStr_map_str (field : String) (l : List String) :
    ∀ i, checkItemsStr field i (l.map Json.str) = .ok () := by
  induction l with
  | nil => intro i; rfl
  | cons x xs ih =>
    intro i
    rw [List.map_cons, checkItemsStr]
    exact ih (i + 1)

/-- A field holding a list of JSON strings passes the list-field check. -/
theorem checkListField_map_str (d : List (String × Json)) (field : String) (l : List String)
    (h : lookupJ d field = some (.arr (l.map Json.str))) :
    checkListField d field = .ok () := by
  cases l with
  | nil => rw [checkListField, h]; rfl
  | cons x xs =>
    rw [checkListField, h]
    exact checkItemsStr_map_str field (x :: xs) 0

/-- A field holding `null` or a JSON array passes the optional-field check. -/
theorem checkOptField_optVal (d : List (String × Json)) (field : String)
    (o : Option (List String)) (h : lookupJ d field = some (jsonOfOptList o)) :
    checkOptField d field = .ok () := by
  cases o with
  | none => rw [checkOptField, h]; rfl
  | some l => rw [checkOptField, h]; rfl

/-- The decoded payload mapping passes `_validate_field_types`. -/
theorem validate_field_types_payload (P : Payload) :
    validate_field_types (payloadJson P) = .ok () := by
  obtain ⟨de, ob, co, sc, dt, ac, cx⟩ := P
  have h1 : checkListField (payloadJson ⟨de, ob, co, sc, dt, ac, cx⟩) "objectives" =
      .ok () := checkListField_map_str _ _ ob rfl
  have h2 : checkListField (payloadJson ⟨de, ob, co, sc, dt, ac, cx⟩) "success_criteria" =
      .ok () := checkListField_map_str _ _ sc rfl
  have h3 : checkListField (payloadJson ⟨de, ob, co, sc, dt, ac, cx⟩) "constraints" =
      .ok () := checkListField_map_str _ _ co rfl
  have h4 : checkOptField (payloadJson ⟨de, ob, co, sc, dt, ac, cx⟩) "data_to_extract" =
      .ok () := checkOptField_optVal _ _ dt rfl
  have h5 : checkOptField (payloadJson ⟨de, ob, co, sc, dt, ac, cx⟩) "actions_to_perform" =
      .ok () := checkOptField_optVal _ _ ac rfl
  rw [validate_field_types]
  rw [show lookupJ (payloadJson ⟨de, ob, co, sc, dt, ac, cx⟩) "description" =
    some (.str de) from rfl]
  rw [h1, h2, h3, h4, h5]
  rfl

/-- Normalization leaves the decoded payload mapping unchanged, provided the
two optional fields are not the (nullish) empty list. -/
theorem norm_payload (P : Payload)
    (hdt : P.data_to_extract ≠ some []) (hac : P.actions_to_perform ≠ some []) :
    normalize_optional_fields
      (setdefaultJ (setdefaultJ (payloadJson P) "constraints" (.arr []))
        "context" (.obj []))
      ["data_to_extract", "actions_to_perform"] = payloadJson P := by
  obtain ⟨de, ob, co, sc, dt, ac, cx⟩ := P
  cases dt with
  | none =>
    cases ac with
    | none => rfl
    | some la =>
      cases la with
      | nil => exact absurd rfl hac
      | cons a as => rfl
  | some ld =>
    cases ld with
    | nil => exact absurd rfl hdt
    | cons d0 ds =>
      cases ac with
      | none => rfl
      | some la =>
        cases la with
        | nil => exact absurd rfl hac
        | cons a as => rfl

/-- A field holding a non-empty list of JSON strings passes the
minimum-items check. -/
theorem nonEmptyCheck_payload (d : List (String × Json)) (field : String)
    (x : String) (xs : List String)
    (h : lookupJ d field = some (.arr ((x :: xs).map Json.str))) :
    nonEmptyCheck d field = .ok () := by
  rw [nonEmptyCheck, h]
  rfl

/-- The decoded payload mapping passes the whole post-extraction check
chain unchanged. -/
theorem checks_of_data_payload (P : Payload)
    (hob : P.objectives ≠ []) (hsc : P.success_criteria ≠ [])
    (hdt : P.data_to_extract ≠ some []) (hac : P.actions_to_perform ≠ some []) :
    checks_of_data (payloadJson P) = .ok (payloadJson P) := by
  have hnorm := norm_payload P hdt hac
  have hty := validate_field_types_payload P
  obtain ⟨de, ob, co, sc, dt, ac, cx⟩ := P
  obtain ⟨o, os, rfl⟩ : ∃ o os, ob = o :: os := by
    cases ob with
    | nil => exact absurd rfl hob
    | cons o os => exact ⟨o, os, rfl⟩
  obtain ⟨s0, ss, rfl⟩ : ∃ s0 ss, sc = s0 :: ss := by
    cases sc with
    | nil => exact absurd rfl hsc
    | cons s0 ss => exact ⟨s0, ss, rfl⟩
  have hne1 : nonEmptyCheck (payloadJson ⟨de, o :: os, co, s0 :: ss, dt, ac, cx⟩)
      "objectives" = .ok () := nonEmptyCheck_payload _ _ o os rfl
  have hne2 : nonEmptyCheck (payloadJson ⟨de, o :: os, co, s0 :: ss, dt, ac, cx⟩)
      "success_criteria" = .ok () := nonEmptyCheck_payload _ _ s0 ss rfl
  simp only [checks_of_data, show requiredMissing
    (payloadJson ⟨de, o :: os, co, s0 :: ss, dt, ac, cx⟩) = [] from rfl,
    hnorm, hty, hne1, hne2]

/-- Decoding a serialized string list recovers the original list. -/
theorem asStrList_map_str (l : List String) :
    asStrList (.arr (l.map Json.str)) = some l := by
  induction l with
  | nil => rfl
  | cons x xs ih =>
    rw [asStrList] at ih ⊢
    rw [List.map_cons, List.mapM_cons, ih]
    rfl

/-- Decoding an optional serialized list recovers the original option. -/
theorem optStrList_optVal (o : Option (List String)) :
    optStrList (some (jsonOfOptList o)) = some o := by
  cases o with
  | none => rfl
  | some l =>
    show (asStrList (.arr (l.map Json.str))).map some = some (some l)
    rw [asStrList_map_str]
    rfl

/-- `Task(**data)` on the decoded payload mapping reconstructs every field of
the payload. -/
theorem task_of_data_payload (P : Payload)
    (hob : P.objectives ≠ []) (hsc : P.success_criteria ≠ []) :
    task_of_data (payloadJson P) =
      .ok ⟨P.description, P.objectives, P.constraints, P.success_criteria,
        P.data_to_extract, P.actions_to_perform,
        P.context.map (fun p => (p.1, Json.str p.2))⟩ := by
  obtain ⟨de, ob, co, sc, dt, ac, cx⟩ := P
  rw [task_of_data]
  split
  · next hcontra => exact absurd hcontra Bool.false_ne_true
  · simp only [
      show lookupJ (payloadJson ⟨de, ob, co, sc, dt, ac, cx⟩) "description" =
        some (.str de) from rfl,
      show lookupJ (payloadJson ⟨de, ob, co, sc, dt, ac, cx⟩) "objectives" =
        some (.arr (ob.map Json.str)) from rfl,
      show lookupJ (payloadJson ⟨de, ob, co, sc, dt, ac, cx⟩) "constraints" =
        some (.arr (co.map Json.str)) from rfl,
      show lookupJ (payloadJson ⟨de, ob, co, sc, dt, ac, cx⟩) "success_criteria" =
        some (.arr (sc.map Json.str)) from rfl,
      show lookupJ (payloadJson ⟨de, ob, co, sc, dt, ac, cx⟩) "data_to_extract" =
        some (jsonOfOptList dt) from rfl,
      show lookupJ (payloadJson ⟨de, ob, co, sc, dt, ac, cx⟩) "actions_to_perform" =
        some (jsonOfOptList ac) from rfl,
      show lookupJ (payloadJson ⟨de, ob, co, sc, dt, ac, cx⟩) "context" =
        some (.obj (cx.map (fun p => (p.1, Json.str p.2)))) from rfl,
      Option.bind, Option.getD, asStrList_map_str, optStrList_optVal]
    rw [mkTask,
      if_neg (show ¬ob.length < 1 from by
        cases ob with
        | nil => exact absurd rfl hob
        | cons o os => simp),
      if_neg (show ¬sc.length < 1 from by
        cases sc with
        | nil => exact absurd rfl hsc
        | cons s0 ss => simp)]

/-- `mkTask` succeeds on the payload's own fields when the two mandatory
lists are non-empty. -/
theorem taskDirect_ok (P : Payload)
    (hob : P.objectives ≠ []) (hsc : P.success_criteria ≠ []) :
    mkTask P.description P.objectives P.constraints P.success_criteria
        P.data_to_extract P.actions_to_perform
        (P.context.map (fun p => (p.1, Json.str p.2))) =
      .ok ⟨P.description, P.objectives, P.constraints, P.success_criteria,
        P.data_to_extract, P.actions_to_perform,
        P.context.map (fun p => (p.1, Json.str p.2))⟩ := by
  rw [mkTask,
    if_neg (show ¬P.objectives.length < 1 from by
      cases hx : P.objectives with
      | nil => exact absurd hx hob
      | cons o os => simp),
    if_neg (show ¬P.success_criteria.length < 1 from by
      cases hx : P.success_criteria with
      | nil => exact absurd hx hsc
      | cons s0 ss => simp)]

/-- The full analysis of one LLM response (analyzer.py:241-244): parse and
validate the response (`_parse_llm_response`), then construct the `Task`
(`Task(**task_data)`). -/
def taskPipeline (response : String) : Except Exc Task :=
  match parse_llm_response response with
  | .ok d => task_of_data d
  | .error e => .error e

/-- Constructing the Task directly from the payload's fields. -/
def taskDirect (P : Payload) : Except Exc Task :=
  mkTask P.description P.objectives P.constraints P.success_criteria
    P.data_to_extract P.actions_to_perform
    (P.context.map (fun p => (p.1, Json.str p.2)))

/-- **C7** (amended & proved).  Round trip: for a well-formed Task payload
(required fields present, `objectives` and `success_criteria` non-empty lists
of strings, the optional list fields either absent/null or non-empty, all
strings free of brace characters), embedding its JSON serialization in
surrounding prose whose leading part contains no opening brace, then
extracting, normalizing, validating and constructing a Task yields a Task
equal in every field to the Task constructed directly from the payload. -/
theorem c7_round_trip (P : Payload) (pre post : List Char)
    (hob : P.objectives ≠ []) (hsc : P.success_criteria ≠ [])
    (hdt : P.data_to_extract ≠ some []) (hac : P.actions_to_perform ≠ some [])
    (hP : payloadBraceFree P) (hpre : ∀ c ∈ pre, ¬c = '{') :
    taskPipeline ⟨pre ++ serializePayload P ++ post⟩ = taskDirect P ∧
    ∃ t : Task, taskDirect P = .ok t ∧
      t.description = P.description ∧ t.objectives = P.objectives ∧
      t.constraints = P.constraints ∧ t.success_criteria = P.success_criteria ∧
      t.data_to_extract = P.data_to_extract ∧
      t.actions_to_perform = P.actions_to_perform ∧
      t.context = P.context.map (fun p => (p.1, Json.str p.2)) := by
  refine ⟨?_, ⟨_, taskDirect_ok P hob hsc, rfl, rfl, rfl, rfl, rfl, rfl, rfl⟩⟩
  have hext := extract_payload P pre post hP hpre
  have hplr : parse_llm_response ⟨pre ++ serializePayload P ++ post⟩ =
      .ok (payloadJson P) := by
    rw [parse_llm_response, hext]
    show checks_of_data (payloadJson P) = .ok (payloadJson P)
    exact checks_of_data_payload P hob hsc hdt hac
  rw [taskPipeline, hplr]
  show task_of_data (payloadJson P) = taskDirect P
  rw [task_of_data_payload P hob hsc, taskDirect, taskDirect_ok P hob hsc]

set_option maxRecDepth 8192 in
/-- **C7 counterexample.**  The claim allows arbitrary surrounding prose.  If
the prose before the payload itself contains a brace-delimited chunk — here
the two characters `\x7b\x7d` — the regex strategy returns that empty object
first, the `if not data` guard rejects it as an invalid response format, and
the pipeline errors instead of producing the Task built directly from the
payload. -/
theorem c7_counterexample :
    taskPipeline ⟨"Note \x7b\x7d first ".data ++ serializePayload samplePayload⟩ =
      .error .invalidResponseFormat ∧
    taskDirect samplePayload =
      .ok ⟨"Extract product prices",
        ["Navigate to products page", "Extract all prices"],
        ["Only extract visible products"],
        ["All product prices extracted"],
        some ["Product names", "Prices"], none,
        [("category", Json.str "electronics")]⟩ :=
  ⟨rfl, rfl⟩

/-- Witness for C7: the round trip at a concrete payload embedded in
concrete prose. -/
theorem c7_round_trip_witness :
    samplePayload.objectives ≠ [] ∧
    taskPipeline ⟨"Answer: ".data ++ serializePayload samplePayload ++ " Done.".data⟩ =
      taskDirect samplePayload :=
  ⟨by decide,
   (c7_round_trip samplePayload "Answer: ".data " Done.".data
      (by decide) (by decide) (by decide) (by decide)
      ⟨by decide, by decide, by decide, by decide,
       fun l hl => by injection hl with h; rw [← h]; decide,
       fun l hl => Option.noConfusion hl,
       by decide⟩
      (by decide)).1⟩

end Scrapinator
